import Mathlib

/-!
Verification of the time-tracker storage and timer core (src/storage.ts).

Shallow embedding conventions:
- Timestamps are integer milliseconds since the Unix epoch. The TypeScript
  code stores ISO strings and converts with `new Date(s)` / `toISOString()`,
  which is a bijection on valid instants; the embedding works directly on
  the millisecond value.
- The localStorage read-modify-write pair `loadData()` / `saveData(data)`
  used inside every repository and timer operation is modelled by passing
  the durable document in and returning the durable document out: a code
  path that does not call `saveData` returns the input document unchanged.
- `crypto.randomUUID()` and `new Date()` readings are passed in as explicit
  parameters (`freshId`, `now`).
- `Math.floor((now - start) / 1000)` on integer milliseconds is `Int.fdiv`
  (floor division), the JS remainder operator is `Int.tmod`.
-/

/-- src/types.ts: `Client`. Optional fields are `Option`; `createdAt` is an
epoch-millisecond timestamp. -/
structure Client where
  id : String
  name : String
  email : Option String
  phone : Option String
  address : Option String
  notes : Option String
  createdAt : Int
deriving DecidableEq, Repr

/-- src/types.ts: `Project`. `hourlyRate` is modelled as an integer amount. -/
structure Project where
  id : String
  clientId : String
  name : String
  description : Option String
  hourlyRate : Option Int
  createdAt : Int
deriving DecidableEq, Repr

/-- src/types.ts: `TimeEntry`. `duration` is in seconds; `startTime`,
`endTime`, `createdAt` are epoch-millisecond timestamps. -/
structure TimeEntry where
  id : String
  projectId : Option String
  clientId : Option String
  description : String
  startTime : Int
  endTime : Option Int
  duration : Int
  isRunning : Bool
  createdAt : Int
deriving DecidableEq, Repr

/-- src/types.ts: `AppData`, the whole persisted document. -/
structure AppData where
  clients : List Client
  projects : List Project
  timeEntries : List TimeEntry
deriving DecidableEq, Repr

/-- storage.ts: `defaultData`, the empty document. -/
def defaultData : AppData := { clients := [], projects := [], timeEntries := [] }

/-- Helper modelling the `findIndex` / `data.xs[index] = merged` /
`return data.xs[index]` pattern of the `update*` functions: replace the first
element satisfying `p` by its image under `f`, returning the new element and
the updated list; if no element matches, return `none` and the list unchanged. -/
def updateFirst (p : α → Bool) (f : α → α) : List α → Option α × List α
  | [] => (none, [])
  | x :: xs =>
    if p x then (some (f x), f x :: xs)
    else
      let r := updateFirst p f xs
      (r.1, x :: r.2)

/-- `Partial<Omit<Client, id | createdAt>>`: each field is `none` when the
key is absent from the update object. For the entity fields that are themselves
optional, a present key carries an `Option` value (JS can set them to
`undefined`). -/
structure ClientUpdates where
  name : Option String := none
  email : Option (Option String) := none
  phone : Option (Option String) := none
  address : Option (Option String) := none
  notes : Option (Option String) := none
deriving DecidableEq, Repr

/-- The object spread `{ ...client, ...updates }` for a Client. -/
def mergeClient (c : Client) (u : ClientUpdates) : Client :=
  { c with
    name := u.name.getD c.name
    email := u.email.getD c.email
    phone := u.phone.getD c.phone
    address := u.address.getD c.address
    notes := u.notes.getD c.notes }

/-- `Partial<Omit<Project, id | createdAt>>`. -/
structure ProjectUpdates where
  clientId : Option String := none
  name : Option String := none
  description : Option (Option String) := none
  hourlyRate : Option (Option Int) := none
deriving DecidableEq, Repr

/-- The object spread `{ ...project, ...updates }` for a Project. -/
def mergeProject (p : Project) (u : ProjectUpdates) : Project :=
  { p with
    clientId := u.clientId.getD p.clientId
    name := u.name.getD p.name
    description := u.description.getD p.description
    hourlyRate := u.hourlyRate.getD p.hourlyRate }

/-- `Partial<Omit<TimeEntry, id | createdAt>>`. -/
structure EntryUpdates where
  projectId : Option (Option String) := none
  clientId : Option (Option String) := none
  description : Option String := none
  startTime : Option Int := none
  endTime : Option (Option Int) := none
  duration : Option Int := none
  isRunning : Option Bool := none
deriving DecidableEq, Repr

/-- The object spread `{ ...entry, ...updates }` for a TimeEntry. -/
def mergeEntry (e : TimeEntry) (u : EntryUpdates) : TimeEntry :=
  { e with
    projectId := u.projectId.getD e.projectId
    clientId := u.clientId.getD e.clientId
    description := u.description.getD e.description
    startTime := u.startTime.getD e.startTime
    endTime := u.endTime.getD e.endTime
    duration := u.duration.getD e.duration
    isRunning := u.isRunning.getD e.isRunning }

/-- storage.ts: `updateClient(id, updates)`. Returns the updated client (or
`none` when the id matches no client) together with the durable document
after the call. -/
def updateClient (data : AppData) (id : String) (updates : ClientUpdates) :
    Option Client × AppData :=
  let r := updateFirst (fun c => c.id == id) (fun c => mergeClient c updates) data.clients
  match r.1 with
  | none => (none, data)
  | some c => (some c, { data with clients := r.2 })

/-- storage.ts: `updateProject(id, updates)`. -/
def updateProject (data : AppData) (id : String) (updates : ProjectUpdates) :
    Option Project × AppData :=
  let r := updateFirst (fun p => p.id == id) (fun p => mergeProject p updates) data.projects
  match r.1 with
  | none => (none, data)
  | some p => (some p, { data with projects := r.2 })

/-- storage.ts: `updateTimeEntry(id, updates)`. -/
def updateTimeEntry (data : AppData) (id : String) (updates : EntryUpdates) :
    Option TimeEntry × AppData :=
  let r := updateFirst (fun e => e.id == id) (fun e => mergeEntry e updates) data.timeEntries
  match r.1 with
  | none => (none, data)
  | some e => (some e, { data with timeEntries := r.2 })

/-- `projectsToDelete.includes(e.projectId)` where `e.projectId` may be
`undefined`: `includes` on a string array is `false` for `undefined`. -/
def includesOpt (l : List String) : Option String → Bool
  | some s => l.contains s
  | none => false

/-- storage.ts: `deleteClient(id)`. Removes the client, all projects with
that `clientId`, and every time entry whose `projectId` is among the removed
projects or whose `clientId` equals `id`; saves only when a client was
actually removed. Returns the `boolean` result and the durable document. -/
def deleteClient (data : AppData) (id : String) : Bool × AppData :=
  let clients2 := data.clients.filter (fun c => c.id != id)
  let projectsToDelete := (data.projects.filter (fun p => p.clientId == id)).map (fun p => p.id)
  let projects2 := data.projects.filter (fun p => p.clientId != id)
  let entries2 := data.timeEntries.filter
    (fun e => !(includesOpt projectsToDelete e.projectId) && e.clientId != some id)
  if clients2.length < data.clients.length then
    (true, { clients := clients2, projects := projects2, timeEntries := entries2 })
  else
    (false, data)

/-- storage.ts: `deleteProject(id)`. -/
def deleteProject (data : AppData) (id : String) : Bool × AppData :=
  let projects2 := data.projects.filter (fun p => p.id != id)
  let entries2 := data.timeEntries.filter (fun e => e.projectId != some id)
  if projects2.length < data.projects.length then
    (true, { data with projects := projects2, timeEntries := entries2 })
  else
    (false, data)

/-- storage.ts: `deleteTimeEntry(id)`. -/
def deleteTimeEntry (data : AppData) (id : String) : Bool × AppData :=
  let entries2 := data.timeEntries.filter (fun e => e.id != id)
  if entries2.length < data.timeEntries.length then
    (true, { data with timeEntries := entries2 })
  else
    (false, data)

/-- `Omit<TimeEntry, id | createdAt>`, the argument of `addTimeEntry`. -/
structure NewEntry where
  projectId : Option String
  clientId : Option String
  description : String
  startTime : Int
  endTime : Option Int
  duration : Int
  isRunning : Bool
deriving DecidableEq, Repr

/-- storage.ts: `addTimeEntry(entry)`. `freshId` models `crypto.randomUUID()`
and `now` the `new Date().toISOString()` creation stamp. -/
def addTimeEntry (data : AppData) (freshId : String) (now : Int) (entry : NewEntry) :
    TimeEntry × AppData :=
  let newEntry : TimeEntry :=
    { id := freshId
      projectId := entry.projectId
      clientId := entry.clientId
      description := entry.description
      startTime := entry.startTime
      endTime := entry.endTime
      duration := entry.duration
      isRunning := entry.isRunning
      createdAt := now }
  (newEntry, { data with timeEntries := data.timeEntries ++ [newEntry] })

/-- storage.ts: `stopAllRunningTimers()`. Every running entry is closed:
`endTime := now`, `duration := floor((now - startTime) / 1000) + duration`,
`isRunning := false`. The document is saved unconditionally. -/
def stopAllRunningTimers (data : AppData) (now : Int) : AppData :=
  { data with
    timeEntries := data.timeEntries.map (fun e =>
      if e.isRunning then
        { e with
          endTime := some now
          duration := Int.fdiv (now - e.startTime) 1000 + e.duration
          isRunning := false }
      else e) }

/-- storage.ts: `startTimer(projectId, clientId, description)`. The three
wall-clock readings taken during the call (inside `stopAllRunningTimers`, for
`startTime`, and for `createdAt` inside `addTimeEntry`) are the parameters
`tStop`, `tNow`, `tCreated`. -/
def startTimer (data : AppData) (freshId : String) (tStop tNow tCreated : Int)
    (projectId clientId description : String) : TimeEntry × AppData :=
  let data1 := stopAllRunningTimers data tStop
  addTimeEntry data1 freshId tCreated
    { projectId := some projectId
      clientId := some clientId
      description := description
      startTime := tNow
      endTime := none
      duration := 0
      isRunning := true }

/-- storage.ts: `stopTimer(entryId)`. -/
def stopTimer (data : AppData) (entryId : String) (now : Int) :
    Option TimeEntry × AppData :=
  match data.timeEntries.find? (fun e => e.id == entryId) with
  | none => (none, data)
  | some entry =>
    if entry.isRunning then
      let duration := Int.fdiv (now - entry.startTime) 1000 + entry.duration
      updateTimeEntry data entryId
        { endTime := some (some now), duration := some duration, isRunning := some false }
    else (none, data)

/-- storage.ts: `pauseTimer(entryId)`. Closes the running segment without
setting `endTime`. -/
def pauseTimer (data : AppData) (entryId : String) (now : Int) :
    Option TimeEntry × AppData :=
  match data.timeEntries.find? (fun e => e.id == entryId) with
  | none => (none, data)
  | some entry =>
    if entry.isRunning then
      let duration := Int.fdiv (now - entry.startTime) 1000 + entry.duration
      updateTimeEntry data entryId
        { duration := some duration, isRunning := some false }
    else (none, data)

/-- storage.ts: `resumeTimer(entryId)`. Note: the source checks only
`!entry || entry.isRunning`; it does not inspect `endTime`. `tStop` is the
clock reading inside `stopAllRunningTimers`, `tNow` the one used for the new
`startTime`. -/
def resumeTimer (data : AppData) (entryId : String) (tStop tNow : Int) :
    Option TimeEntry × AppData :=
  match data.timeEntries.find? (fun e => e.id == entryId) with
  | none => (none, data)
  | some entry =>
    if entry.isRunning then (none, data)
    else
      let data1 := stopAllRunningTimers data tStop
      updateTimeEntry data1 entryId
        { startTime := some tNow, isRunning := some true }

/-- storage.ts: `getRunningTimer()`. -/
def getRunningTimer (data : AppData) : Option TimeEntry :=
  data.timeEntries.find? (fun e => e.isRunning)

/-- One timer-engine call, for stating trace properties. -/
inductive TimerOp where
  | start (freshId : String) (tStop tNow tCreated : Int) (projectId clientId description : String)
  | pause (entryId : String) (now : Int)
  | resume (entryId : String) (tStop tNow : Int)
  | stop (entryId : String) (now : Int)
deriving DecidableEq, Repr

/-- The durable document after one timer-engine call. -/
def applyOp (data : AppData) : TimerOp → AppData
  | .start freshId tStop tNow tCreated p c d =>
    (startTimer data freshId tStop tNow tCreated p c d).2
  | .pause entryId now => (pauseTimer data entryId now).2
  | .resume entryId tStop tNow => (resumeTimer data entryId tStop tNow).2
  | .stop entryId now => (stopTimer data entryId now).2

/-- The entries currently flagged as running. -/
def runningEntries (data : AppData) : List TimeEntry :=
  data.timeEntries.filter (fun e => e.isRunning)

/-- A document satisfies the single-timer invariant when at most one entry is
flagged running. -/
def atMostOneRunning (data : AppData) : Prop := (runningEntries data).length ≤ 1

theorem updateFirst_of_no_match {p : α → Bool} {f : α → α} :
    ∀ l : List α, (∀ x ∈ l, p x = false) → updateFirst p f l = (none, l) := by
  intro l h
  induction l with
  | nil => rfl
  | cons x xs ih =>
    have hx : p x = false := h x (List.mem_cons_self x xs)
    simp only [updateFirst, hx, Bool.false_eq_true, if_false]
    rw [ih (fun y hy => h y (List.mem_cons_of_mem x hy))]

theorem find?_updateFirst {p : α → Bool} (f : α → α) :
    ∀ (l : List α) (e : α), l.find? p = some e →
      ∃ l1 l2, l = l1 ++ e :: l2 ∧ (∀ x ∈ l1, p x = false) ∧ p e = true ∧
        updateFirst p f l = (some (f e), l1 ++ f e :: l2) := by
  intro l
  induction l with
  | nil => intro e h; simp [List.find?] at h
  | cons x xs ih =>
    intro e h
    by_cases hx : p x = true
    · rw [List.find?_cons_of_pos _ hx] at h
      injection h with h
      subst h
      exact ⟨[], xs, rfl, by simp, hx, by simp [updateFirst, hx]⟩
    · have hx2 : p x = false := Bool.eq_false_iff.mpr hx
      rw [List.find?_cons_of_neg _ hx] at h
      obtain ⟨l1, l2, hl, hnm, hpe, hup⟩ := ih e h
      refine ⟨x :: l1, l2, by simp [hl], ?_, hpe, ?_⟩
      · intro y hy
        rcases List.mem_cons.mp hy with rfl | hy2
        · exact hx2
        · exact hnm y hy2
      · simp [updateFirst, hx2, hup]

theorem stopAll_entry_not_running {data : AppData} {now : Int} :
    ∀ e ∈ (stopAllRunningTimers data now).timeEntries, e.isRunning = false := by
  intro e he
  simp only [stopAllRunningTimers, List.mem_map] at he
  obtain ⟨x, _, hx⟩ := he
  by_cases hr : x.isRunning = true
  · simp [hr] at hx; rw [← hx]
  · simp [Bool.eq_false_iff.mpr hr] at hx
    rw [← hx]; exact Bool.eq_false_iff.mpr hr

theorem runningEntries_stopAll (data : AppData) (now : Int) :
    runningEntries (stopAllRunningTimers data now) = [] := by
  rw [runningEntries, List.filter_eq_nil_iff]
  intro e he
  simp [stopAll_entry_not_running e he]

/-- The closing map inside `stopAllRunningTimers` never touches the id. -/
theorem stopAll_preserves_ids (data : AppData) (now : Int) :
    (stopAllRunningTimers data now).timeEntries.map (fun e => e.id) =
      data.timeEntries.map (fun e => e.id) := by
  simp only [stopAllRunningTimers, List.map_map]
  apply List.map_congr_left
  intro e _
  by_cases hr : e.isRunning = true <;> simp [hr]

theorem startTimer_exactly_one_running (data : AppData) (freshId : String)
    (tStop tNow tCreated : Int) (projectId clientId description : String) :
    runningEntries (startTimer data freshId tStop tNow tCreated projectId clientId description).2 =
      [(startTimer data freshId tStop tNow tCreated projectId clientId description).1] := by
  simp only [startTimer, addTimeEntry, runningEntries, List.filter_append]
  rw [show (stopAllRunningTimers data tStop).timeEntries.filter (fun e => e.isRunning) =
      runningEntries (stopAllRunningTimers data tStop) from rfl,
    runningEntries_stopAll]
  simp

theorem updateFirst_append {p : α → Bool} {f : α → α} :
    ∀ (l1 : List α) (e : α) (l2 : List α), (∀ x ∈ l1, p x = false) → p e = true →
      updateFirst p f (l1 ++ e :: l2) = (some (f e), l1 ++ f e :: l2) := by
  intro l1
  induction l1 with
  | nil => intro e l2 _ he; simp [updateFirst, he]
  | cons x xs ih =>
    intro e l2 h he
    have hx : p x = false := h x (List.mem_cons_self x xs)
    have := ih e l2 (fun y hy => h y (List.mem_cons_of_mem x hy)) he
    simp [updateFirst, hx, this]

theorem updateTimeEntry_stop_flag_preserves (data : AppData) (id : String)
    (u : EntryUpdates) (hu : u.isRunning = some false) (h : atMostOneRunning data) :
    atMostOneRunning (updateTimeEntry data id u).2 := by
  rcases hf : data.timeEntries.find? (fun e => e.id == id) with _ | e
  · rw [List.find?_eq_none] at hf
    have : ∀ x ∈ data.timeEntries, (fun e => e.id == id) x = false := by
      intro x hx; exact Bool.eq_false_iff.mpr (hf x hx)
    simp [updateTimeEntry, updateFirst_of_no_match _ this]
    exact h
  · obtain ⟨l1, l2, hl, hnm, hpe, hup⟩ :=
      find?_updateFirst (fun e => mergeEntry e u) data.timeEntries e hf
    have hme : (mergeEntry e u).isRunning = false := by simp [mergeEntry, hu]
    simp only [updateTimeEntry, hup]
    unfold atMostOneRunning runningEntries at h ⊢
    rw [hl] at h
    simp only [List.filter_append, List.filter_cons, List.length_append, hme,
      Bool.false_eq_true, if_false] at h ⊢
    rcases hr : e.isRunning with _ | _ <;> rw [hr] at h <;> simp_all <;> omega

theorem pauseTimer_preserves_atMostOne (data : AppData) (id : String) (now : Int)
    (h : atMostOneRunning data) : atMostOneRunning (pauseTimer data id now).2 := by
  unfold pauseTimer
  rcases hf : data.timeEntries.find? (fun e => e.id == id) with _ | e
  · simp only [hf]; exact h
  · simp only [hf]
    by_cases hr : e.isRunning = true
    · simp only [hr, if_true]
      refine updateTimeEntry_stop_flag_preserves data id _ ?_ h
      rfl
    · simp only [Bool.eq_false_iff.mpr hr, Bool.false_eq_true, if_false]
      exact h

theorem stopTimer_preserves_atMostOne (data : AppData) (id : String) (now : Int)
    (h : atMostOneRunning data) : atMostOneRunning (stopTimer data id now).2 := by
  unfold stopTimer
  rcases hf : data.timeEntries.find? (fun e => e.id == id) with _ | e
  · simp only [hf]; exact h
  · simp only [hf]
    by_cases hr : e.isRunning = true
    · simp only [hr, if_true]
      refine updateTimeEntry_stop_flag_preserves data id _ ?_ h
      rfl
    · simp only [Bool.eq_false_iff.mpr hr, Bool.false_eq_true, if_false]
      exact h

theorem resumeTimer_success_exactly_one (data : AppData) (id : String) (tStop tNow : Int)
    (e : TimeEntry) (hf : data.timeEntries.find? (fun x => x.id == id) = some e)
    (hr : e.isRunning = false) :
    ∃ e2, (resumeTimer data id tStop tNow).1 = some e2 ∧
      e2 = mergeEntry e { startTime := some tNow, isRunning := some true } ∧
      runningEntries (resumeTimer data id tStop tNow).2 = [e2] := by
  obtain ⟨l1, l2, hl, hnm, hpe, _⟩ :=
    find?_updateFirst (fun x => mergeEntry x
      { startTime := some tNow, isRunning := some true }) data.timeEntries e hf
  set u : EntryUpdates := { startTime := some tNow, isRunning := some true } with hu
  set closeFn : TimeEntry → TimeEntry := fun x =>
    if x.isRunning then
      { x with
        endTime := some tStop
        duration := Int.fdiv (tStop - x.startTime) 1000 + x.duration
        isRunning := false }
    else x with hclose
  have hstop : (stopAllRunningTimers data tStop).timeEntries = data.timeEntries.map closeFn := rfl
  have hce : closeFn e = e := by simp [hclose, hr]
  have hmapped : (stopAllRunningTimers data tStop).timeEntries =
      l1.map closeFn ++ e :: l2.map closeFn := by
    rw [hstop, hl, List.map_append, List.map_cons, hce]
  have hids : ∀ x, (closeFn x).id = x.id := by
    intro x; by_cases hx : x.isRunning = true <;> simp [hclose, hx]
  have hnm2 : ∀ x ∈ l1.map closeFn, (fun y => y.id == id) x = false := by
    intro x hx
    obtain ⟨y, hy, rfl⟩ := List.mem_map.mp hx
    simp only [hids]
    exact hnm y hy
  have hup2 := @updateFirst_append TimeEntry (fun y => y.id == id)
    (fun x => mergeEntry x u) (l1.map closeFn) e (l2.map closeFn) hnm2 hpe
  have hres : resumeTimer data id tStop tNow =
      (some (mergeEntry e u),
        { stopAllRunningTimers data tStop with
          timeEntries := l1.map closeFn ++ mergeEntry e u :: l2.map closeFn }) := by
    simp only [resumeTimer, hf, hr, Bool.false_eq_true, if_false]
    simp only [updateTimeEntry, hmapped, hup2]
  refine ⟨mergeEntry e u, by rw [hres], rfl, ?_⟩
  have hnotrun : ∀ x ∈ l1.map closeFn ++ l2.map closeFn, x.isRunning = false := by
    intro x hx
    apply @stopAll_entry_not_running data tStop
    rw [hmapped]
    rcases List.mem_append.mp hx with h1 | h2
    · exact List.mem_append.mpr (Or.inl h1)
    · exact List.mem_append.mpr (Or.inr (List.mem_cons_of_mem e h2))
  have hmerun : (mergeEntry e u).isRunning = true := by simp [mergeEntry, hu]
  rw [hres]
  unfold runningEntries
  simp only [List.filter_append, List.filter_cons, hmerun, if_true]
  rw [List.filter_eq_nil_iff.mpr (fun a ha => by
      simp [hnotrun a (List.mem_append.mpr (Or.inl ha))]),
    List.filter_eq_nil_iff.mpr (fun a ha => by
      simp [hnotrun a (List.mem_append.mpr (Or.inr ha))])]
  rfl

theorem resumeTimer_preserves_atMostOne (data : AppData) (id : String) (tStop tNow : Int)
    (h : atMostOneRunning data) : atMostOneRunning (resumeTimer data id tStop tNow).2 := by
  rcases hf : data.timeEntries.find? (fun x => x.id == id) with _ | e
  · simp only [resumeTimer, hf]; exact h
  · by_cases hr : e.isRunning = true
    · simp only [resumeTimer, hf, hr, if_true]; exact h
    · obtain ⟨e2, _, _, hrun⟩ :=
        resumeTimer_success_exactly_one data id tStop tNow e hf (Bool.eq_false_iff.mpr hr)
      unfold atMostOneRunning
      rw [hrun]
      simp

theorem applyOp_preserves_atMostOne (data : AppData) (op : TimerOp)
    (h : atMostOneRunning data) : atMostOneRunning (applyOp data op) := by
  cases op with
  | start freshId tStop tNow tCreated p c d =>
    unfold applyOp atMostOneRunning
    rw [startTimer_exactly_one_running]
    simp
  | pause entryId now => exact pauseTimer_preserves_atMostOne data entryId now h
  | resume entryId tStop tNow => exact resumeTimer_preserves_atMostOne data entryId tStop tNow h
  | stop entryId now => exact stopTimer_preserves_atMostOne data entryId now h

/-- Claim C1: applied to any initial document with at most one running entry,
every sequence of timer operations (startTimer, pauseTimer, resumeTimer,
stopTimer) leaves at most one TimeEntry with `isRunning = true` after each
call; moreover, after any `startTimer` call — from an arbitrary, even
inconsistent, prior document — the newly created entry is the only running
one, because `startTimer` first closes every entry still marked running. -/
theorem timer_single_running_invariant (ops : List TimerOp) (data : AppData)
    (h : atMostOneRunning data) :
    atMostOneRunning (ops.foldl applyOp data) ∧
    (∀ (anyDoc : AppData) (freshId : String) (tStop tNow tCreated : Int)
      (projectId clientId description : String),
      runningEntries (startTimer anyDoc freshId tStop tNow tCreated
          projectId clientId description).2 =
        [(startTimer anyDoc freshId tStop tNow tCreated projectId clientId description).1]) ∧
    (∀ (anyDoc : AppData) (freshId : String) (tStop tNow tCreated : Int)
      (projectId clientId description : String),
      ∀ e ∈ anyDoc.timeEntries, e.isRunning = true →
        { e with
          endTime := some tStop
          duration := e.duration + Int.fdiv (tStop - e.startTime) 1000
          isRunning := false } ∈
          (startTimer anyDoc freshId tStop tNow tCreated projectId clientId
            description).2.timeEntries) := by
  refine ⟨?_, ?_, ?_⟩
  · induction ops generalizing data with
    | nil => exact h
    | cons op rest ih =>
      exact ih (applyOp data op) (applyOp_preserves_atMostOne data op h)
  · intro anyDoc freshId tStop tNow tCreated projectId clientId description
    exact startTimer_exactly_one_running anyDoc freshId tStop tNow tCreated
      projectId clientId description
  · intro anyDoc freshId tStop tNow tCreated projectId clientId description e he hr
    simp only [startTimer, addTimeEntry, List.mem_append]
    left
    simp only [stopAllRunningTimers, List.mem_map]
    refine ⟨e, he, ?_⟩
    rw [hr]
    simp only [if_true]
    congr 1
    omega

theorem updateTimeEntry_success (data : AppData) (id : String) (u : EntryUpdates)
    (e : TimeEntry) (hf : data.timeEntries.find? (fun x => x.id == id) = some e) :
    ∃ l1 l2, data.timeEntries = l1 ++ e :: l2 ∧ (∀ x ∈ l1, (x.id == id) = false) ∧
      updateTimeEntry data id u =
        (some (mergeEntry e u), { data with timeEntries := l1 ++ mergeEntry e u :: l2 }) := by
  obtain ⟨l1, l2, hl, hnm, _, hup⟩ := find?_updateFirst (fun x => mergeEntry x u) data.timeEntries e hf
  exact ⟨l1, l2, hl, hnm, by simp only [updateTimeEntry, hup]⟩

theorem updateClient_success (data : AppData) (id : String) (u : ClientUpdates)
    (c : Client) (hf : data.clients.find? (fun x => x.id == id) = some c) :
    ∃ l1 l2, data.clients = l1 ++ c :: l2 ∧ (∀ x ∈ l1, (x.id == id) = false) ∧
      updateClient data id u =
        (some (mergeClient c u), { data with clients := l1 ++ mergeClient c u :: l2 }) := by
  obtain ⟨l1, l2, hl, hnm, _, hup⟩ := find?_updateFirst (fun x => mergeClient x u) data.clients c hf
  exact ⟨l1, l2, hl, hnm, by simp only [updateClient, hup]⟩

theorem updateProject_success (data : AppData) (id : String) (u : ProjectUpdates)
    (p : Project) (hf : data.projects.find? (fun x => x.id == id) = some p) :
    ∃ l1 l2, data.projects = l1 ++ p :: l2 ∧ (∀ x ∈ l1, (x.id == id) = false) ∧
      updateProject data id u =
        (some (mergeProject p u), { data with projects := l1 ++ mergeProject p u :: l2 }) := by
  obtain ⟨l1, l2, hl, hnm, _, hup⟩ := find?_updateFirst (fun x => mergeProject x u) data.projects p hf
  exact ⟨l1, l2, hl, hnm, by simp only [updateProject, hup]⟩

theorem updateTimeEntry_notfound (data : AppData) (id : String) (u : EntryUpdates)
    (h : ∀ e ∈ data.timeEntries, e.id ≠ id) : updateTimeEntry data id u = (none, data) := by
  have h2 : ∀ x ∈ data.timeEntries, ((fun e => e.id == id) x) = false := by
    intro x hx; simpa using h x hx
  simp [updateTimeEntry, updateFirst_of_no_match _ h2]

theorem updateClient_notfound (data : AppData) (id : String) (u : ClientUpdates)
    (h : ∀ c ∈ data.clients, c.id ≠ id) : updateClient data id u = (none, data) := by
  have h2 : ∀ x ∈ data.clients, ((fun c => c.id == id) x) = false := by
    intro x hx; simpa using h x hx
  simp [updateClient, updateFirst_of_no_match _ h2]

theorem updateProject_notfound (data : AppData) (id : String) (u : ProjectUpdates)
    (h : ∀ p ∈ data.projects, p.id ≠ id) : updateProject data id u = (none, data) := by
  have h2 : ∀ x ∈ data.projects, ((fun p => p.id == id) x) = false := by
    intro x hx; simpa using h x hx
  simp [updateProject, updateFirst_of_no_match _ h2]

/-- The update object `{ duration, isRunning: false }` submitted by `pauseTimer`. -/
def pauseUpdates (e : TimeEntry) (now : Int) : EntryUpdates :=
  { duration := some (Int.fdiv (now - e.startTime) 1000 + e.duration), isRunning := some false }

/-- The update object `{ endTime: now, duration, isRunning: false }` submitted by `stopTimer`. -/
def stopUpdates (e : TimeEntry) (now : Int) : EntryUpdates :=
  { endTime := some (some now),
    duration := some (Int.fdiv (now - e.startTime) 1000 + e.duration),
    isRunning := some false }

theorem pauseTimer_success (data : AppData) (entryId : String) (now : Int) (e : TimeEntry)
    (hf : data.timeEntries.find? (fun x => x.id == entryId) = some e)
    (hr : e.isRunning = true) :
    ∃ l1 l2, data.timeEntries = l1 ++ e :: l2 ∧ (∀ x ∈ l1, (x.id == entryId) = false) ∧
      pauseTimer data entryId now =
        (some (mergeEntry e (pauseUpdates e now)),
         { data with timeEntries := l1 ++ mergeEntry e (pauseUpdates e now) :: l2 }) := by
  obtain ⟨l1, l2, hl, hnm, hup⟩ := updateTimeEntry_success data entryId (pauseUpdates e now) e hf
  refine ⟨l1, l2, hl, hnm, ?_⟩
  simp only [pauseTimer, hf, hr, if_true]
  exact hup

theorem stopTimer_success (data : AppData) (entryId : String) (now : Int) (e : TimeEntry)
    (hf : data.timeEntries.find? (fun x => x.id == entryId) = some e)
    (hr : e.isRunning = true) :
    ∃ l1 l2, data.timeEntries = l1 ++ e :: l2 ∧ (∀ x ∈ l1, (x.id == entryId) = false) ∧
      stopTimer data entryId now =
        (some (mergeEntry e (stopUpdates e now)),
         { data with timeEntries := l1 ++ mergeEntry e (stopUpdates e now) :: l2 }) := by
  obtain ⟨l1, l2, hl, hnm, hup⟩ := updateTimeEntry_success data entryId (stopUpdates e now) e hf
  refine ⟨l1, l2, hl, hnm, ?_⟩
  simp only [stopTimer, hf, hr, if_true]
  exact hup

theorem pauseTimer_notfound (data : AppData) (entryId : String) (now : Int)
    (h : data.timeEntries.find? (fun x => x.id == entryId) = none) :
    pauseTimer data entryId now = (none, data) := by
  simp [pauseTimer, h]

theorem pauseTimer_not_running (data : AppData) (entryId : String) (now : Int) (e : TimeEntry)
    (hf : data.timeEntries.find? (fun x => x.id == entryId) = some e)
    (hr : e.isRunning = false) :
    pauseTimer data entryId now = (none, data) := by
  simp [pauseTimer, hf, hr]

/-- Concrete running entry used in examples. -/
def exEntryRun : TimeEntry :=
  { id := "t1", projectId := some "p1", clientId := some "c1", description := "design",
    startTime := 0, endTime := none, duration := 0, isRunning := true, createdAt := 0 }

/-- Document with a single running entry. -/
def exDocRun : AppData := { clients := [], projects := [], timeEntries := [exEntryRun] }

/-- Concrete paused entry: not running, no `endTime`, accumulated 125 s. -/
def exEntryPaused : TimeEntry :=
  { id := "t1", projectId := some "p1", clientId := some "c1", description := "design",
    startTime := 0, endTime := none, duration := 125, isRunning := false, createdAt := 0 }

/-- Document with a single paused entry. -/
def exDocPaused : AppData := { clients := [], projects := [], timeEntries := [exEntryPaused] }

/-- Concrete permanently stopped entry: not running and `endTime` set. -/
def exEntryStopped : TimeEntry :=
  { id := "t1", projectId := some "p1", clientId := some "c1", description := "design",
    startTime := 0, endTime := some 5000, duration := 5, isRunning := false, createdAt := 0 }

/-- Document with a single stopped entry. -/
def exDocStopped : AppData := { clients := [], projects := [], timeEntries := [exEntryStopped] }

/-- A second running entry, for building an inconsistent document. -/
def exEntryRun2 : TimeEntry :=
  { id := "t2", projectId := none, clientId := none, description := "stray",
    startTime := 1000, endTime := none, duration := 3, isRunning := true, createdAt := 1000 }

/-- Inconsistent document with two simultaneously running entries. -/
def exDocTwoRunning : AppData :=
  { clients := [], projects := [], timeEntries := [exEntryRun, exEntryRun2] }

/-- Witness for claim C1 at concrete inputs: a start-then-pause trace from the
empty document keeps at most one entry running, and a start on a document that
(inconsistently) holds two running entries leaves exactly the new entry
running. -/
theorem timer_single_running_invariant_witness :
    atMostOneRunning
      ([TimerOp.start "t9" 0 0 0 "p1" "c1" "w", TimerOp.pause "t9" 60000].foldl
        applyOp defaultData) ∧
    runningEntries (startTimer exDocTwoRunning "t5" 7000 7000 7000 "p" "c" "x").2 =
      [(startTimer exDocTwoRunning "t5" 7000 7000 7000 "p" "c" "x").1] := by
  constructor
  · exact (timer_single_running_invariant
      [TimerOp.start "t9" 0 0 0 "p1" "c1" "w", TimerOp.pause "t9" 60000] defaultData
      (by simp [atMostOneRunning, runningEntries, defaultData])).1
  · exact (timer_single_running_invariant [] defaultData
      (by simp [atMostOneRunning, runningEntries, defaultData])).2.1
      exDocTwoRunning "t5" 7000 7000 7000 "p" "c" "x"

/-- Claim C2 counterexample: the claim states that `resumeTimer` returns the
absence value unless the entry has no `endTime`; but on a permanently stopped
entry (`isRunning = false`, `endTime` set) the source proceeds anyway — it
checks only `!entry || entry.isRunning` — and returns the updated entry, with
the stale `endTime` still present and `isRunning = true`. -/
theorem resumeTimer_no_endTime_check_cx :
    exEntryStopped.isRunning = false ∧ exEntryStopped.endTime = some 5000 ∧
    (resumeTimer exDocStopped "t1" 10000 10000).1 =
      some { exEntryStopped with startTime := 10000, isRunning := true } := by
  decide

/-- Claim C2 (amended): `resumeTimer(entryId)` returns the absence value iff
the entry does not exist or already has `isRunning = true` — no `endTime`
check is performed, so even a permanently stopped entry is resumed. When it
proceeds it closes any other running entry (the updated entry is the only
running one afterwards), sets `startTime := now` and `isRunning := true`, and
leaves `duration` and `endTime` (and every other field) untouched, returning
the updated entry. -/
theorem resumeTimer_spec (data : AppData) (entryId : String) (tStop tNow : Int) :
    (data.timeEntries.find? (fun x => x.id == entryId) = none →
      resumeTimer data entryId tStop tNow = (none, data)) ∧
    (∀ e, data.timeEntries.find? (fun x => x.id == entryId) = some e → e.isRunning = true →
      resumeTimer data entryId tStop tNow = (none, data)) ∧
    (∀ e, data.timeEntries.find? (fun x => x.id == entryId) = some e → e.isRunning = false →
      ∃ e2, (resumeTimer data entryId tStop tNow).1 = some e2 ∧
        e2.startTime = tNow ∧ e2.isRunning = true ∧ e2.duration = e.duration ∧
        e2.endTime = e.endTime ∧ e2.id = e.id ∧ e2.projectId = e.projectId ∧
        e2.clientId = e.clientId ∧ e2.description = e.description ∧
        runningEntries (resumeTimer data entryId tStop tNow).2 = [e2]) := by
  refine ⟨?_, ?_, ?_⟩
  · intro h; simp [resumeTimer, h]
  · intro e hf hr; simp [resumeTimer, hf, hr]
  · intro e hf hr
    obtain ⟨e2, h1, he2, hrun⟩ := resumeTimer_success_exactly_one data entryId tStop tNow e hf hr
    subst he2
    exact ⟨_, h1, rfl, rfl, rfl, rfl, rfl, rfl, rfl, rfl, hrun⟩

/-- Witness for claim C2 at a concrete input: resuming a paused entry succeeds
and leaves it the only running entry. -/
theorem resumeTimer_spec_witness :
    ∃ e2, (resumeTimer exDocPaused "t1" 200000 200000).1 = some e2 ∧
      e2.startTime = 200000 ∧ e2.isRunning = true ∧ e2.duration = exEntryPaused.duration ∧
      e2.endTime = exEntryPaused.endTime ∧ e2.id = exEntryPaused.id ∧
      e2.projectId = exEntryPaused.projectId ∧ e2.clientId = exEntryPaused.clientId ∧
      e2.description = exEntryPaused.description ∧
      runningEntries (resumeTimer exDocPaused "t1" 200000 200000).2 = [e2] :=
  (resumeTimer_spec exDocPaused "t1" 200000 200000).2.2 exEntryPaused (by decide) rfl

/-- Claim C4: `pauseTimer(entryId)` on an existing running entry returns the
entry with `duration` increased by `floor((now - startTime) / 1000)`,
`isRunning = false`, and every other field — in particular `startTime` and
`endTime` — unchanged, replacing exactly that entry in the persisted document;
when the entry does not exist or is not running it returns the absence value
and leaves the durable document exactly as it was. -/
theorem pauseTimer_functional_spec (data : AppData) (entryId : String) (now : Int) :
    (data.timeEntries.find? (fun x => x.id == entryId) = none →
      pauseTimer data entryId now = (none, data)) ∧
    (∀ e, data.timeEntries.find? (fun x => x.id == entryId) = some e → e.isRunning = false →
      pauseTimer data entryId now = (none, data)) ∧
    (∀ e, data.timeEntries.find? (fun x => x.id == entryId) = some e → e.isRunning = true →
      ∃ e2 l1 l2, data.timeEntries = l1 ++ e :: l2 ∧ (∀ x ∈ l1, (x.id == entryId) = false) ∧
        pauseTimer data entryId now = (some e2, { data with timeEntries := l1 ++ e2 :: l2 }) ∧
        e2.duration = e.duration + Int.fdiv (now - e.startTime) 1000 ∧
        e2.isRunning = false ∧ e2.startTime = e.startTime ∧ e2.endTime = e.endTime ∧
        e2.id = e.id ∧ e2.projectId = e.projectId ∧ e2.clientId = e.clientId ∧
        e2.description = e.description ∧ e2.createdAt = e.createdAt) := by
  refine ⟨?_, ?_, ?_⟩
  · intro h; exact pauseTimer_notfound data entryId now h
  · intro e hf hr; exact pauseTimer_not_running data entryId now e hf hr
  · intro e hf hr
    obtain ⟨l1, l2, hl, hnm, hp⟩ := pauseTimer_success data entryId now e hf hr
    refine ⟨mergeEntry e (pauseUpdates e now), l1, l2, hl, hnm, hp, ?_, ?_, ?_, ?_, ?_, ?_, ?_, ?_, ?_⟩
    · simp [mergeEntry, pauseUpdates]; omega
    all_goals simp [mergeEntry, pauseUpdates]

/-- Witness for claim C4 at a concrete input: pausing a running entry that
started at 0 at time 125000 yields duration 125 and clears the running flag. -/
theorem pauseTimer_functional_spec_witness :
    ∃ e2 l1 l2, exDocRun.timeEntries = l1 ++ exEntryRun :: l2 ∧
      (∀ x ∈ l1, (x.id == "t1") = false) ∧
      pauseTimer exDocRun "t1" 125000 =
        (some e2, { exDocRun with timeEntries := l1 ++ e2 :: l2 }) ∧
      e2.duration = exEntryRun.duration + Int.fdiv (125000 - exEntryRun.startTime) 1000 ∧
      e2.isRunning = false ∧ e2.startTime = exEntryRun.startTime ∧
      e2.endTime = exEntryRun.endTime ∧ e2.id = exEntryRun.id ∧
      e2.projectId = exEntryRun.projectId ∧ e2.clientId = exEntryRun.clientId ∧
      e2.description = exEntryRun.description ∧ e2.createdAt = exEntryRun.createdAt :=
  (pauseTimer_functional_spec exDocRun "t1" 125000).2.2 exEntryRun (by decide) rfl

/-- Concrete client fixture. -/
def exClient : Client :=
  { id := "c1", name := "Acme", email := some "x@acme.test", phone := none,
    address := none, notes := none, createdAt := 0 }

/-- Concrete project fixture owned by `exClient`. -/
def exProject : Project :=
  { id := "p1", clientId := "c1", name := "Site", description := none,
    hourlyRate := some 100, createdAt := 0 }

/-- Document containing one client, one project, one stopped entry. -/
def exDocFull : AppData :=
  { clients := [exClient], projects := [exProject], timeEntries := [exEntryStopped] }

/-- A project whose `clientId` references a client that is not in the document. -/
def exProjDangling : Project :=
  { id := "p9", clientId := "cx", name := "orphan", description := none,
    hourlyRate := none, createdAt := 0 }

/-- A time entry referencing the absent client `cx` and the project `p9`. -/
def exEntryDangling : TimeEntry :=
  { id := "t7", projectId := some "p9", clientId := some "cx", description := "ghost",
    startTime := 0, endTime := some 1000, duration := 1, isRunning := false, createdAt := 0 }

/-- Document with no clients but a project and an entry referencing id `cx`. -/
def exDocDangling : AppData :=
  { clients := [], projects := [exProjDangling], timeEntries := [exEntryDangling] }

/-- Claim C6: the three `update*` operations return the absence value and
leave the durable document untouched when no entity carries the id; when the
first entity with the id exists, the partial fields are shallow-merged over
it, exactly that occurrence is replaced in the persisted document, and the
merged entity is returned. -/
theorem update_notfound_atomicity (data : AppData) (id : String) :
    ((∀ c ∈ data.clients, c.id ≠ id) →
      ∀ u : ClientUpdates, updateClient data id u = (none, data)) ∧
    ((∀ p ∈ data.projects, p.id ≠ id) →
      ∀ u : ProjectUpdates, updateProject data id u = (none, data)) ∧
    ((∀ e ∈ data.timeEntries, e.id ≠ id) →
      ∀ u : EntryUpdates, updateTimeEntry data id u = (none, data)) ∧
    (∀ (u : ClientUpdates) c, data.clients.find? (fun x => x.id == id) = some c →
      ∃ l1 l2, data.clients = l1 ++ c :: l2 ∧ (∀ x ∈ l1, (x.id == id) = false) ∧
        updateClient data id u =
          (some (mergeClient c u), { data with clients := l1 ++ mergeClient c u :: l2 })) ∧
    (∀ (u : ProjectUpdates) p, data.projects.find? (fun x => x.id == id) = some p →
      ∃ l1 l2, data.projects = l1 ++ p :: l2 ∧ (∀ x ∈ l1, (x.id == id) = false) ∧
        updateProject data id u =
          (some (mergeProject p u), { data with projects := l1 ++ mergeProject p u :: l2 })) ∧
    (∀ (u : EntryUpdates) e, data.timeEntries.find? (fun x => x.id == id) = some e →
      ∃ l1 l2, data.timeEntries = l1 ++ e :: l2 ∧ (∀ x ∈ l1, (x.id == id) = false) ∧
        updateTimeEntry data id u =
          (some (mergeEntry e u), { data with timeEntries := l1 ++ mergeEntry e u :: l2 })) := by
  refine ⟨?_, ?_, ?_, ?_, ?_, ?_⟩
  · intro h u; exact updateClient_notfound data id u h
  · intro h u; exact updateProject_notfound data id u h
  · intro h u; exact updateTimeEntry_notfound data id u h
  · intro u c hf; exact updateClient_success data id u c hf
  · intro u p hf; exact updateProject_success data id u p hf
  · intro u e hf; exact updateTimeEntry_success data id u e hf

/-- Witness for claim C6 at concrete inputs: updates with an unmatched id
return `none` and leave the document intact; a matched client update merges
the given fields. -/
theorem update_notfound_atomicity_witness :
    updateClient exDocFull "zzz" { name := some "X" } = (none, exDocFull) ∧
    updateProject exDocFull "zzz" { name := some "X" } = (none, exDocFull) ∧
    updateTimeEntry exDocFull "zzz" { description := some "X" } = (none, exDocFull) ∧
    ∃ l1 l2, exDocFull.clients = l1 ++ exClient :: l2 ∧
      (∀ x ∈ l1, (x.id == "c1") = false) ∧
      updateClient exDocFull "c1" { name := some "Acme 2" } =
        (some (mergeClient exClient { name := some "Acme 2" }),
         { exDocFull with clients := l1 ++ mergeClient exClient { name := some "Acme 2" } :: l2 }) :=
  ⟨(update_notfound_atomicity exDocFull "zzz").1 (by decide) _,
   (update_notfound_atomicity exDocFull "zzz").2.1 (by decide) _,
   (update_notfound_atomicity exDocFull "zzz").2.2.1 (by decide) _,
   (update_notfound_atomicity exDocFull "c1").2.2.2.1 _ exClient (by decide)⟩

/-- Claim C10: a `delete*` call whose id matches nothing returns `false` and
does not persist — the durable document is exactly the input document, even
when other entities reference the id. -/
theorem delete_unmatched_persists_nothing (data : AppData) (id : String) :
    ((∀ c ∈ data.clients, c.id ≠ id) → deleteClient data id = (false, data)) ∧
    ((∀ p ∈ data.projects, p.id ≠ id) → deleteProject data id = (false, data)) ∧
    ((∀ e ∈ data.timeEntries, e.id ≠ id) → deleteTimeEntry data id = (false, data)) := by
  refine ⟨?_, ?_, ?_⟩
  · intro h
    have hkeep : data.clients.filter (fun c => c.id != id) = data.clients := by
      rw [List.filter_eq_self]
      intro c hc; simpa using h c hc
    simp [deleteClient, hkeep]
  · intro h
    have hkeep : data.projects.filter (fun p => p.id != id) = data.projects := by
      rw [List.filter_eq_self]
      intro p hp; simpa using h p hp
    simp [deleteProject, hkeep]
  · intro h
    have hkeep : data.timeEntries.filter (fun e => e.id != id) = data.timeEntries := by
      rw [List.filter_eq_self]
      intro e he; simpa using h e he
    simp [deleteTimeEntry, hkeep]

/-- Witness for claim C10 at a concrete input: deleting the absent client
`cx` from a document whose project and time entry reference `cx` returns
`false` and leaves the dangling references durably in place. -/
theorem delete_unmatched_persists_nothing_witness :
    deleteClient exDocDangling "cx" = (false, exDocDangling) ∧
    deleteProject exDocDangling "nope" = (false, exDocDangling) ∧
    deleteTimeEntry exDocDangling "nope" = (false, exDocDangling) :=
  ⟨(delete_unmatched_persists_nothing exDocDangling "cx").1 (by decide),
   (delete_unmatched_persists_nothing exDocDangling "nope").2.1 (by decide),
   (delete_unmatched_persists_nothing exDocDangling "nope").2.2 (by decide)⟩

/-- Claim C5 counterexample: the claim quantifies over every document and id,
but when no client carries the id, `deleteClient` takes the no-save branch:
a project with `clientId = "cx"` and a time entry with `clientId = some "cx"`
survive the call `deleteClient "cx"` durably. -/
theorem deleteClient_cascade_cx :
    exProjDangling.clientId = "cx" ∧ exEntryDangling.clientId = some "cx" ∧
    (deleteClient exDocDangling "cx").2.projects = [exProjDangling] ∧
    (deleteClient exDocDangling "cx").2.timeEntries = [exEntryDangling] := by
  decide

/-- Claim C5 (amended): `deleteClient(id)` returns `true` exactly when some
client carries the id; and whenever a client with the id exists, the result
document contains no client with that id, no project with that `clientId`, no
time entry with that `clientId`, no time entry referencing a project whose
`clientId` was the id, and every surviving time entry that references a
project of the original document references a surviving project. When no
client matches, nothing is removed (see the unmatched-id behaviour). -/
theorem deleteClient_cascade (data : AppData) (id : String) :
    ((deleteClient data id).1 = true ↔ ∃ c ∈ data.clients, c.id = id) ∧
    ((∃ c ∈ data.clients, c.id = id) →
      (∀ c ∈ (deleteClient data id).2.clients, c.id ≠ id) ∧
      (∀ p ∈ (deleteClient data id).2.projects, p.clientId ≠ id) ∧
      (∀ e ∈ (deleteClient data id).2.timeEntries, e.clientId ≠ some id) ∧
      (∀ e ∈ (deleteClient data id).2.timeEntries, ∀ p ∈ data.projects,
        p.clientId = id → e.projectId ≠ some p.id) ∧
      (∀ e ∈ (deleteClient data id).2.timeEntries, ∀ pid, e.projectId = some pid →
        (∃ p ∈ data.projects, p.id = pid) →
        ∃ p ∈ (deleteClient data id).2.projects, p.id = pid)) := by
  constructor
  · by_cases hlt : (data.clients.filter (fun c => c.id != id)).length < data.clients.length
    · simp only [deleteClient, hlt, if_true]
      constructor
      · intro _
        obtain ⟨c, hc, hpc⟩ := List.length_filter_lt_length_iff_exists.mp hlt
        exact ⟨c, hc, by simpa using hpc⟩
      · intro _; trivial
    · simp only [deleteClient, hlt, if_false]
      constructor
      · intro hfalse; exact absurd hfalse (by simp)
      · rintro ⟨c, hc, hcid⟩
        exact absurd (List.length_filter_lt_length_iff_exists.mpr ⟨c, hc, by simp [hcid]⟩) hlt
  · rintro ⟨c0, hc0, hc0id⟩
    have hlt : (data.clients.filter (fun c => c.id != id)).length < data.clients.length :=
      List.length_filter_lt_length_iff_exists.mpr ⟨c0, hc0, by simp [hc0id]⟩
    have hdel : (deleteClient data id).2 =
        { clients := data.clients.filter (fun c => c.id != id)
          projects := data.projects.filter (fun p => p.clientId != id)
          timeEntries := data.timeEntries.filter (fun e =>
            !(includesOpt ((data.projects.filter (fun p => p.clientId == id)).map
                (fun p => p.id)) e.projectId) && e.clientId != some id) } := by
      simp only [deleteClient, hlt, if_true]
    rw [hdel]
    refine ⟨?_, ?_, ?_, ?_, ?_⟩
    · intro c hc
      simpa using (List.mem_filter.mp hc).2
    · intro p hp
      simpa using (List.mem_filter.mp hp).2
    · intro e he
      have := (List.mem_filter.mp he).2
      simp only [Bool.and_eq_true] at this
      simpa using this.2
    · intro e he p hp hpc hep
      have hpred := (List.mem_filter.mp he).2
      simp only [Bool.and_eq_true] at hpred
      have hinc : includesOpt ((data.projects.filter (fun p => p.clientId == id)).map
          (fun p => p.id)) e.projectId = false := by
        simpa using hpred.1
      rw [hep] at hinc
      have hpfil : p ∈ data.projects.filter (fun p => p.clientId == id) :=
        List.mem_filter.mpr ⟨hp, by simp [hpc]⟩
      have hmem : p.id ∈ (data.projects.filter (fun p => p.clientId == id)).map
          (fun p => p.id) := List.mem_map_of_mem _ hpfil
      simp only [includesOpt, List.contains] at hinc
      rw [List.elem_eq_true_of_mem hmem] at hinc
      simp at hinc
    · intro e he pid hepid hex2
      obtain ⟨p, hp, hpid⟩ := hex2
      by_cases hpc : p.clientId = id
      · exfalso
        have hpred := (List.mem_filter.mp he).2
        simp only [Bool.and_eq_true] at hpred
        have hinc : includesOpt ((data.projects.filter (fun p => p.clientId == id)).map
            (fun p => p.id)) e.projectId = false := by
          simpa using hpred.1
        rw [hepid] at hinc
        have hpfil : p ∈ data.projects.filter (fun p => p.clientId == id) :=
          List.mem_filter.mpr ⟨hp, by simp [hpc]⟩
        have hmem : pid ∈ (data.projects.filter (fun p => p.clientId == id)).map
            (fun p => p.id) := hpid ▸ List.mem_map_of_mem _ hpfil
        simp only [includesOpt, List.contains] at hinc
        rw [List.elem_eq_true_of_mem hmem] at hinc
        simp at hinc
      · exact ⟨p, List.mem_filter.mpr ⟨hp, by simp [hpc]⟩, hpid⟩

/-- Time entry attached to project `p1` of client `c1` (spec scenario 3). -/
def exEntryT1 : TimeEntry :=
  { id := "T1", projectId := some "p1", clientId := some "c1", description := "a",
    startTime := 0, endTime := some 1000, duration := 1, isRunning := false, createdAt := 0 }

/-- Time entry attached to client `c1` directly, with no project. -/
def exEntryT2 : TimeEntry :=
  { id := "T2", projectId := none, clientId := some "c1", description := "b",
    startTime := 0, endTime := some 1000, duration := 1, isRunning := false, createdAt := 0 }

/-- Document for the cascade scenario: client `c1`, its project `p1`, an entry
on the project and an entry on the client alone. -/
def exDocCascade : AppData :=
  { clients := [exClient], projects := [exProject], timeEntries := [exEntryT1, exEntryT2] }

/-- Witness for claim C5 at a concrete input: deleting client `c1` removes its
project and both time entries. -/
theorem deleteClient_cascade_witness :
    (deleteClient exDocCascade "c1").1 = true ∧
    (∀ c ∈ (deleteClient exDocCascade "c1").2.clients, c.id ≠ "c1") ∧
    (∀ p ∈ (deleteClient exDocCascade "c1").2.projects, p.clientId ≠ "c1") ∧
    (∀ e ∈ (deleteClient exDocCascade "c1").2.timeEntries, e.clientId ≠ some "c1") := by
  have hex : ∃ c ∈ exDocCascade.clients, c.id = "c1" := ⟨exClient, by decide, rfl⟩
  exact ⟨(deleteClient_cascade exDocCascade "c1").1.mpr hex,
    ((deleteClient_cascade exDocCascade "c1").2 hex).1,
    ((deleteClient_cascade exDocCascade "c1").2 hex).2.1,
    ((deleteClient_cascade exDocCascade "c1").2 hex).2.2.1⟩

/-- Documents reachable from the empty document by timer operations, where
`resumeTimer` is only invoked on entries that carry no `endTime` (the
restriction forced by the C3 counterexample). -/
inductive ReachSafe : AppData → Prop where
  | init : ReachSafe defaultData
  | start (data : AppData) (freshId : String) (tStop tNow tCreated : Int)
      (projectId clientId description : String) : ReachSafe data →
      ReachSafe (startTimer data freshId tStop tNow tCreated projectId clientId description).2
  | pause (data : AppData) (entryId : String) (now : Int) : ReachSafe data →
      ReachSafe (pauseTimer data entryId now).2
  | stop (data : AppData) (entryId : String) (now : Int) : ReachSafe data →
      ReachSafe (stopTimer data entryId now).2
  | resume (data : AppData) (entryId : String) (tStop tNow : Int) : ReachSafe data →
      (∀ e, data.timeEntries.find? (fun x => x.id == entryId) = some e → e.endTime = none) →
      ReachSafe (resumeTimer data entryId tStop tNow).2

/-- No entry carries an `endTime` while flagged running. -/
def endTimeInv (data : AppData) : Prop :=
  ∀ e ∈ data.timeEntries, e.endTime ≠ none → e.isRunning = false

theorem startTimer_endTimeInv (data : AppData) (freshId : String) (tStop tNow tCreated : Int)
    (projectId clientId description : String) :
    endTimeInv (startTimer data freshId tStop tNow tCreated projectId clientId description).2 := by
  intro e he
  simp only [startTimer, addTimeEntry] at he
  rcases List.mem_append.mp he with h1 | h2
  · intro _; exact stopAll_entry_not_running e h1
  · simp only [List.mem_singleton] at h2
    subst h2
    intro hend
    exact absurd rfl hend

theorem pauseTimer_endTimeInv (data : AppData) (entryId : String) (now : Int)
    (h : endTimeInv data) : endTimeInv (pauseTimer data entryId now).2 := by
  rcases hf : data.timeEntries.find? (fun x => x.id == entryId) with _ | e
  · rw [pauseTimer_notfound data entryId now hf]; exact h
  · by_cases hr : e.isRunning = true
    · obtain ⟨l1, l2, hl, _, hp⟩ := pauseTimer_success data entryId now e hf hr
      rw [hp]
      intro x hx hend
      simp only at hx
      rcases List.mem_append.mp hx with h1 | h2
      · exact h x (hl ▸ List.mem_append.mpr (Or.inl h1)) hend
      · rcases List.mem_cons.mp h2 with rfl | h3
        · simp [mergeEntry, pauseUpdates]
        · exact h x (hl ▸ List.mem_append.mpr (Or.inr (List.mem_cons_of_mem e h3))) hend
    · rw [pauseTimer_not_running data entryId now e hf (Bool.eq_false_iff.mpr hr)]
      exact h

theorem stopTimer_endTimeInv (data : AppData) (entryId : String) (now : Int)
    (h : endTimeInv data) : endTimeInv (stopTimer data entryId now).2 := by
  rcases hf : data.timeEntries.find? (fun x => x.id == entryId) with _ | e
  · simp only [stopTimer, hf]; exact h
  · by_cases hr : e.isRunning = true
    · obtain ⟨l1, l2, hl, _, hp⟩ := stopTimer_success data entryId now e hf hr
      rw [hp]
      intro x hx hend
      simp only at hx
      rcases List.mem_append.mp hx with h1 | h2
      · exact h x (hl ▸ List.mem_append.mpr (Or.inl h1)) hend
      · rcases List.mem_cons.mp h2 with rfl | h3
        · simp [mergeEntry, stopUpdates]
        · exact h x (hl ▸ List.mem_append.mpr (Or.inr (List.mem_cons_of_mem e h3))) hend
    · simp only [stopTimer, hf, Bool.eq_false_iff.mpr hr, Bool.false_eq_true, if_false]
      exact h

theorem resumeTimer_endTimeInv (data : AppData) (entryId : String) (tStop tNow : Int)
    (h : endTimeInv data)
    (hsafe : ∀ e, data.timeEntries.find? (fun x => x.id == entryId) = some e →
      e.endTime = none) :
    endTimeInv (resumeTimer data entryId tStop tNow).2 := by
  rcases hf : data.timeEntries.find? (fun x => x.id == entryId) with _ | e
  · simp only [resumeTimer, hf]; exact h
  · by_cases hr : e.isRunning = true
    · simp only [resumeTimer, hf, hr, if_true]; exact h
    · obtain ⟨e2, _, he2, hrun⟩ := resumeTimer_success_exactly_one data entryId tStop tNow e hf
        (Bool.eq_false_iff.mpr hr)
      intro x hx hend
      by_contra hxr
      have hxrun : x.isRunning = true := by
        rcases hb : x.isRunning with _ | _
        · exact absurd hb hxr
        · rfl
      have hxmem : x ∈ runningEntries (resumeTimer data entryId tStop tNow).2 :=
        List.mem_filter.mpr ⟨hx, by simp [hxrun]⟩
      rw [hrun] at hxmem
      rcases List.mem_singleton.mp hxmem with rfl
      have : x.endTime = e.endTime := by rw [he2]; simp [mergeEntry]
      rw [this, hsafe e hf] at hend
      exact absurd rfl hend

/-- Claim C3 counterexample: the trace start, stop, resume (all on the same
entry) is built from timer operations only, yet its final document holds an
entry with `isRunning = true` and `endTime` still set — `resumeTimer` neither
checks nor clears `endTime` of the entry it restarts. -/
theorem endTime_iff_stopped_cx :
    ∃ e ∈ (([TimerOp.start "t1" 0 0 0 "p1" "c1" "w", TimerOp.stop "t1" 5000,
        TimerOp.resume "t1" 9000 9000]).foldl applyOp defaultData).timeEntries,
      e.isRunning = true ∧ e.endTime = some 5000 := by
  decide

/-- Claim C3 (amended): in every document reachable from the empty document by
timer operations in which `resumeTimer` is only applied to entries without an
`endTime`, no entry has `endTime` set while `isRunning = true`; `pauseTimer`
never changes the `endTime` of any entry (it never sets one, which is what
distinguishes pausing from stopping); and a successful `stopTimer` always sets
`endTime` and clears the running flag. Without the restriction on
`resumeTimer` the invariant fails, because resuming a stopped entry keeps its
`endTime` while setting `isRunning = true`. -/
theorem endTime_iff_stopped (data : AppData) (h : ReachSafe data) :
    endTimeInv data ∧
    (∀ (d2 : AppData) (entryId : String) (now : Int),
      ((pauseTimer d2 entryId now).2).timeEntries.map (fun e => e.endTime) =
        d2.timeEntries.map (fun e => e.endTime)) ∧
    (∀ (d2 : AppData) (entryId : String) (now : Int) (e : TimeEntry),
      d2.timeEntries.find? (fun x => x.id == entryId) = some e → e.isRunning = true →
      ∃ e2, (stopTimer d2 entryId now).1 = some e2 ∧ e2.endTime = some now ∧
        e2.isRunning = false) := by
  refine ⟨?_, ?_, ?_⟩
  · induction h with
    | init => intro e he _; simp [defaultData] at he
    | start data freshId tStop tNow tCreated projectId clientId description _ _ =>
      exact startTimer_endTimeInv data freshId tStop tNow tCreated projectId clientId description
    | pause data entryId now _ ih => exact pauseTimer_endTimeInv data entryId now ih
    | stop data entryId now _ ih => exact stopTimer_endTimeInv data entryId now ih
    | resume data entryId tStop tNow _ hsafe ih =>
      exact resumeTimer_endTimeInv data entryId tStop tNow ih hsafe
  · intro d2 entryId now
    rcases hf : d2.timeEntries.find? (fun x => x.id == entryId) with _ | e
    · rw [pauseTimer_notfound d2 entryId now hf]
    · by_cases hr : e.isRunning = true
      · obtain ⟨l1, l2, hl, _, hp⟩ := pauseTimer_success d2 entryId now e hf hr
        rw [hp, hl]
        simp [mergeEntry, pauseUpdates]
      · rw [pauseTimer_not_running d2 entryId now e hf (Bool.eq_false_iff.mpr hr)]
  · intro d2 entryId now e hf hr
    obtain ⟨l1, l2, _, _, hs⟩ := stopTimer_success d2 entryId now e hf hr
    refine ⟨mergeEntry e (stopUpdates e now), by rw [hs], ?_, ?_⟩ <;>
      simp [mergeEntry, stopUpdates]

/-- Witness for claim C3 at a concrete input: the document obtained by a
single `startTimer` from the empty document is reachable with the resume
restriction and satisfies the invariant; pausing a concrete running document
leaves all `endTime` fields unchanged. -/
theorem endTime_iff_stopped_witness :
    endTimeInv (startTimer defaultData "t1" 0 0 0 "p1" "c1" "w").2 ∧
    ((pauseTimer exDocRun "t1" 60000).2).timeEntries.map (fun e => e.endTime) =
      exDocRun.timeEntries.map (fun e => e.endTime) := by
  have T := endTime_iff_stopped (startTimer defaultData "t1" 0 0 0 "p1" "c1" "w").2
    (ReachSafe.start defaultData "t1" 0 0 0 "p1" "c1" "w" ReachSafe.init)
  exact ⟨T.1, T.2.1 exDocRun "t1" 60000⟩

/-- JSON value tree: the image of `JSON.stringify` / `JSON.parse`. The string
layer itself is a bijection between JSON trees and their serializations, so
the persisted cell is modelled as a tree. Numbers hold the integer values
used by the data model. -/
inductive Json where
  | null
  | bool (b : Bool)
  | num (n : Int)
  | str (s : String)
  | arr (elements : List Json)
  | obj (fields : List (String × Json))

/-- Key lookup in a JSON object, modelling JS property access. -/
def jGet (fields : List (String × Json)) (key : String) : Option Json :=
  (fields.find? (fun kv => kv.1 == key)).map (fun kv => kv.2)

/-- `JSON.stringify` of a Client: optional fields that are `undefined` are
omitted from the output object. -/
def Client.encode (c : Client) : Json :=
  Json.obj ([("id", Json.str c.id), ("name", Json.str c.name)] ++
    (match c.email with | none => [] | some v => [("email", Json.str v)]) ++
    (match c.phone with | none => [] | some v => [("phone", Json.str v)]) ++
    (match c.address with | none => [] | some v => [("address", Json.str v)]) ++
    (match c.notes with | none => [] | some v => [("notes", Json.str v)]) ++
    [("createdAt", Json.num c.createdAt)])

/-- `JSON.stringify` of a Project. -/
def Project.encode (p : Project) : Json :=
  Json.obj ([("id", Json.str p.id), ("clientId", Json.str p.clientId),
      ("name", Json.str p.name)] ++
    (match p.description with | none => [] | some v => [("description", Json.str v)]) ++
    (match p.hourlyRate with | none => [] | some v => [("hourlyRate", Json.num v)]) ++
    [("createdAt", Json.num p.createdAt)])

/-- `JSON.stringify` of a TimeEntry. -/
def TimeEntry.encode (e : TimeEntry) : Json :=
  Json.obj ([("id", Json.str e.id)] ++
    (match e.projectId with | none => [] | some v => [("projectId", Json.str v)]) ++
    (match e.clientId with | none => [] | some v => [("clientId", Json.str v)]) ++
    [("description", Json.str e.description), ("startTime", Json.num e.startTime)] ++
    (match e.endTime with | none => [] | some v => [("endTime", Json.num v)]) ++
    [("duration", Json.num e.duration), ("isRunning", Json.bool e.isRunning),
     ("createdAt", Json.num e.createdAt)])

/-- Read a required string property. -/
def asStr : Option Json → Option String
  | some (Json.str s) => some s
  | _ => none

/-- Read a required integer property. -/
def asNum : Option Json → Option Int
  | some (Json.num n) => some n
  | _ => none

/-- Read a required boolean property. -/
def asBool : Option Json → Option Bool
  | some (Json.bool b) => some b
  | _ => none

/-- Read an optional string property: an absent key decodes to `none`. -/
def asOptStr : Option Json → Option (Option String)
  | none => some none
  | some (Json.str s) => some (some s)
  | _ => none

/-- Read an optional integer property: an absent key decodes to `none`. -/
def asOptNum : Option Json → Option (Option Int)
  | none => some none
  | some (Json.num n) => some (some n)
  | _ => none

/-- Structural decoder for a Client, the bridge used to state that a decoded
tree is structurally equal to the original entity. -/
def Client.decode (j : Json) : Option Client :=
  match j with
  | Json.obj fs =>
    match asStr (jGet fs "id"), asStr (jGet fs "name"), asOptStr (jGet fs "email"),
        asOptStr (jGet fs "phone"), asOptStr (jGet fs "address"), asOptStr (jGet fs "notes"),
        asNum (jGet fs "createdAt") with
    | some id, some name, some email, some phone, some address, some notes, some createdAt =>
      some { id := id, name := name, email := email, phone := phone, address := address,
             notes := notes, createdAt := createdAt }
    | _, _, _, _, _, _, _ => none
  | _ => none

/-- Structural decoder for a Project. -/
def Project.decode (j : Json) : Option Project :=
  match j with
  | Json.obj fs =>
    match asStr (jGet fs "id"), asStr (jGet fs "clientId"), asStr (jGet fs "name"),
        asOptStr (jGet fs "description"), asOptNum (jGet fs "hourlyRate"),
        asNum (jGet fs "createdAt") with
    | some id, some clientId, some name, some description, some hourlyRate, some createdAt =>
      some { id := id, clientId := clientId, name := name, description := description,
             hourlyRate := hourlyRate, createdAt := createdAt }
    | _, _, _, _, _, _ => none
  | _ => none

/-- Structural decoder for a TimeEntry. -/
def TimeEntry.decode (j : Json) : Option TimeEntry :=
  match j with
  | Json.obj fs =>
    match asStr (jGet fs "id"), asOptStr (jGet fs "projectId"), asOptStr (jGet fs "clientId"),
        asStr (jGet fs "description"), asNum (jGet fs "startTime"),
        asOptNum (jGet fs "endTime"), asNum (jGet fs "duration"),
        asBool (jGet fs "isRunning"), asNum (jGet fs "createdAt") with
    | some id, some projectId, some clientId, some description, some startTime,
        some endTime, some duration, some isRunning, some createdAt =>
      some { id := id, projectId := projectId, clientId := clientId,
             description := description, startTime := startTime, endTime := endTime,
             duration := duration, isRunning := isRunning, createdAt := createdAt }
    | _, _, _, _, _, _, _, _, _ => none
  | _ => none

/-- Decode every element of a JSON array. -/
def decodeList (f : Json → Option α) : List Json → Option (List α)
  | [] => some []
  | j :: js =>
    match f j, decodeList f js with
    | some a, some as2 => some (a :: as2)
    | _, _ => none

/-- `JSON.stringify(data)` for the whole document; the keys appear in the
declaration order of `AppData`, as in the stored object. -/
def encodeApp (data : AppData) : Json :=
  Json.obj [("clients", Json.arr (data.clients.map Client.encode)),
            ("projects", Json.arr (data.projects.map Project.encode)),
            ("timeEntries", Json.arr (data.timeEntries.map TimeEntry.encode))]

/-- Structural decoder for the whole document. -/
def decodeApp (j : Json) : Option AppData :=
  match j with
  | Json.obj fs =>
    match jGet fs "clients", jGet fs "projects", jGet fs "timeEntries" with
    | some (Json.arr cs), some (Json.arr ps), some (Json.arr es) =>
      match decodeList Client.decode cs, decodeList Project.decode ps,
          decodeList TimeEntry.decode es with
      | some cs2, some ps2, some es2 =>
        some { clients := cs2, projects := ps2, timeEntries := es2 }
      | _, _, _ => none
    | _, _, _ => none
  | _ => none

/-- The value stored under the localStorage key: a parsed JSON tree, or an
unparseable string (`corrupt`, the branch caught by `loadData`). -/
inductive StoredVal where
  | json (j : Json)
  | corrupt

/-- The localStorage cell: `none` when `localStorage.getItem` returns null. -/
abbrev Store := Option StoredVal

/-- storage.ts: `saveData(data)` — `localStorage.setItem(KEY, JSON.stringify(data))`
overwrites the cell. -/
def saveData (data : AppData) (_store : Store) : Store :=
  some (StoredVal.json (encodeApp data))

/-- The JSON object corresponding to `defaultData`. -/
def defaultFields : List (String × Json) :=
  [("clients", Json.arr []), ("projects", Json.arr []), ("timeEntries", Json.arr [])]

/-- The object spread `{ ...defaultData, ...parsed }`: keys of the base keep
their position, overridden by the parsed value when present; keys of `parsed`
that are not in the base are appended. -/
def spreadMerge (base parsed : List (String × Json)) : List (String × Json) :=
  base.map (fun kv =>
    match jGet parsed kv.1 with
    | some v => (kv.1, v)
    | none => kv) ++
  parsed.filter (fun kv => (jGet base kv.1).isNone)

/-- storage.ts: `loadData()` at the JSON level. A stored object is spread over
`defaultData`; a missing cell, an unparseable string (caught exception), or a
non-object JSON value all produce the default document. (Spreading a string
would also add numeric index keys; they are never read by the application and
are not modelled.) -/
def loadData (store : Store) : Json :=
  match store with
  | some (StoredVal.json (Json.obj fs)) => Json.obj (spreadMerge defaultFields fs)
  | some (StoredVal.json _) => Json.obj defaultFields
  | some StoredVal.corrupt => Json.obj defaultFields
  | none => Json.obj defaultFields

theorem decode_encode_client (c : Client) : Client.decode (Client.encode c) = some c := by
  rcases c with ⟨id, name, email, phone, address, notes, createdAt⟩
  rcases email with _ | ev <;> rcases phone with _ | pv <;>
    rcases address with _ | av <;> rcases notes with _ | nv <;>
    simp [Client.encode, Client.decode, jGet, asStr, asOptStr, asNum]

theorem decode_encode_project (p : Project) : Project.decode (Project.encode p) = some p := by
  rcases p with ⟨id, clientId, name, description, hourlyRate, createdAt⟩
  rcases description with _ | dv <;> rcases hourlyRate with _ | hv <;>
    simp [Project.encode, Project.decode, jGet, asStr, asOptStr, asOptNum, asNum]

theorem decode_encode_entry (e : TimeEntry) :
    TimeEntry.decode (TimeEntry.encode e) = some e := by
  rcases e with ⟨id, projectId, clientId, description, startTime, endTime, duration,
    isRunning, createdAt⟩
  rcases projectId with _ | pv <;> rcases clientId with _ | cv <;>
    rcases endTime with _ | tv <;>
    simp [TimeEntry.encode, TimeEntry.decode, jGet, asStr, asOptStr, asOptNum, asNum, asBool]

theorem decodeList_encode {α : Type} (f : Json → Option α) (enc : α → Json)
    (h : ∀ a, f (enc a) = some a) : ∀ l : List α, decodeList f (l.map enc) = some l := by
  intro l
  induction l with
  | nil => rfl
  | cons a as2 ih => simp [decodeList, h a, ih]

/-- Claim C7: round-trip persistence — for every document, `saveData` followed
by `loadData` yields precisely the stored JSON tree of the document (the
shallow merge over the default object is the identity because all three keys
are present), and that tree decodes structurally to the original document:
every id, timestamp, and field is preserved. -/
theorem save_load_roundtrip (data : AppData) (store : Store) :
    loadData (saveData data store) = encodeApp data ∧
    decodeApp (encodeApp data) = some data := by
  constructor
  · rfl
  · have h1 : decodeList Client.decode (data.clients.map Client.encode) = some data.clients :=
      decodeList_encode _ _ decode_encode_client _
    have h2 : decodeList Project.decode (data.projects.map Project.encode) =
        some data.projects := decodeList_encode _ _ decode_encode_project _
    have h3 : decodeList TimeEntry.decode (data.timeEntries.map TimeEntry.encode) =
        some data.timeEntries := decodeList_encode _ _ decode_encode_entry _
    simp [decodeApp, encodeApp, jGet, h1, h2, h3]

/-- Claim C9 counterexample: the claim says that only a completely missing key
or a parse failure yields the all-empty default; but a stored object with no
keys produces the very same all-empty default value even though the store is
neither missing nor corrupt. -/
theorem loadData_fills_missing_cx :
    loadData (some (StoredVal.json (Json.obj []))) = Json.obj defaultFields ∧
    loadData none = Json.obj defaultFields ∧
    some (StoredVal.json (Json.obj [])) ≠ (none : Store) ∧
    some (StoredVal.json (Json.obj [])) ≠ some StoredVal.corrupt := by
  refine ⟨rfl, rfl, by simp, by simp⟩

/-- Claim C9 (amended): when the stored value parses as a JSON object, 
`loadData` returns it shallow-merged over the default empty document, so each
of the three top-level keys is always present in the result — carrying the
stored value when the key is present and the empty array otherwise. A missing
key or a parse failure yields the all-empty default, but so does a stored
object lacking all three keys (or a non-object JSON value), so the default
result is not exclusive to missing or corrupt stores. -/
theorem spreadMerge_default (fs : List (String × Json)) :
    spreadMerge defaultFields fs =
      [("clients", (jGet fs "clients").getD (Json.arr [])),
       ("projects", (jGet fs "projects").getD (Json.arr [])),
       ("timeEntries", (jGet fs "timeEntries").getD (Json.arr []))] ++
      fs.filter (fun kv => (jGet defaultFields kv.1).isNone) := by
  rcases h1 : jGet fs "clients" with _ | v1 <;>
    rcases h2 : jGet fs "projects" with _ | v2 <;>
    rcases h3 : jGet fs "timeEntries" with _ | v3 <;>
    simp [spreadMerge, defaultFields, h1, h2, h3]

theorem loadData_fills_missing (fs : List (String × Json)) :
    loadData (some (StoredVal.json (Json.obj fs))) =
      Json.obj (spreadMerge defaultFields fs) ∧
    jGet (spreadMerge defaultFields fs) "clients" =
      some ((jGet fs "clients").getD (Json.arr [])) ∧
    jGet (spreadMerge defaultFields fs) "projects" =
      some ((jGet fs "projects").getD (Json.arr [])) ∧
    jGet (spreadMerge defaultFields fs) "timeEntries" =
      some ((jGet fs "timeEntries").getD (Json.arr [])) := by
  refine ⟨rfl, ?_, ?_, ?_⟩ <;> rw [spreadMerge_default] <;> simp [jGet]

/-- The character for a decimal digit. -/
def digitChar (n : Nat) : Char := Char.ofNat (48 + n)

/-- Structurally recursive digit emitter: `fuel` bounds the recursion depth
(`n` itself is always enough fuel). -/
def natDigitsF : Nat → Nat → List Char
  | 0, n => [digitChar n]
  | fuel + 1, n => if n < 10 then [digitChar n] else natDigitsF fuel (n / 10) ++ [digitChar (n % 10)]

/-- Decimal digits of a natural number, modelling the JS number-to-string
conversion for nonnegative integers. -/
def natDigits (n : Nat) : List Char := natDigitsF n n

/-- JS number-to-string for integers (a leading minus sign when negative). -/
def intDigits (n : Int) : List Char :=
  if n < 0 then '-' :: natDigits (-n).toNat else natDigits n.toNat

/-- `padStart(2, '0')`. -/
def pad2 (l : List Char) : List Char := List.replicate (2 - l.length) '0' ++ l

/-- Parse an initial run of decimal digits with an accumulator; `none` on any
non-digit character. -/
def parseDigitsAux : Nat → List Char → Option Nat
  | acc, [] => some acc
  | acc, c :: cs =>
    if 48 ≤ c.toNat ∧ c.toNat ≤ 57 then parseDigitsAux (acc * 10 + (c.toNat - 48)) cs
    else none

/-- Parse a nonempty all-digit string as a natural number. -/
def parseDigits : List Char → Option Nat
  | [] => none
  | cs => parseDigitsAux 0 cs

/-- Split a character list at every occurrence of the separator, modelling the
JS `String.prototype.split` with a single-character separator. -/
def splitSep (sep : Char) : List Char → List (List Char)
  | [] => [[]]
  | c :: cs =>
    match splitSep sep cs with
    | [] => [[]]
    | t :: ts => if c == sep then [] :: t :: ts else (c :: t) :: ts

/-- Join parts with a separator, modelling `Array.prototype.join`. -/
def joinSep (sep : Char) : List (List Char) → List Char
  | [] => []
  | x :: xs =>
    match xs with
    | [] => x
    | _ => x ++ sep :: joinSep sep xs

/-- Quarter-day helpers for the Gregorian conversion (the computation behind
the `Date` / `toLocaleDateString` builtins, in UTC): era index of a day
number. -/
def civilEra (z : Int) : Int := (z + 719468) / 146097

/-- Day within the 400-year era, in `[0, 146096]`. -/
def civilDoe (z : Int) : Int := z + 719468 - 146097 * civilEra z

/-- Century within the era, in `[0, 3]`. -/
def civilC (z : Int) : Int := (4 * civilDoe z + 3) / 146097

/-- Day within the century. -/
def civilDg (z : Int) : Int := civilDoe z - 36524 * civilC z

/-- Year within the century, in `[0, 99]`. -/
def civilYoc (z : Int) : Int := (4 * civilDg z + 3) / 1461

/-- Day within the March-based year, in `[0, 365]`. -/
def civilDoy (z : Int) : Int := civilDg z - (365 * civilYoc z + civilYoc z / 4)

/-- March-based month index, in `[0, 11]`. -/
def civilMp (z : Int) : Int := (5 * civilDoy z + 2) / 153

/-- Convert a day number (days since 1970-01-01) to a Gregorian civil date
`(year, month, day)`; model of the calendar computation done by the JS `Date`
builtins for the UTC timezone. -/
def civilFromDays (z : Int) : Int × Int × Int :=
  (400 * civilEra z + 100 * civilC z + civilYoc z +
     (if civilMp z + (if civilMp z < 10 then 3 else -9) ≤ 2 then 1 else 0),
   civilMp z + (if civilMp z < 10 then 3 else -9),
   civilDoy z - (153 * civilMp z + 2) / 5 + 1)

/-- March-shifted year used by the day-number reconstruction. -/
def dfcY2 (y m : Int) : Int := y - (if m ≤ 2 then 1 else 0)

/-- Era of the March-shifted year. -/
def dfcEra (y m : Int) : Int := dfcY2 y m / 400

/-- Year of era of the March-shifted year. -/
def dfcYoe (y m : Int) : Int := dfcY2 y m - 400 * dfcEra y m

/-- Day of the March-based year from month and day-of-month. -/
def dfcDoy (m d : Int) : Int := (153 * (m + (if 2 < m then -3 else 9)) + 2) / 5 + d - 1

/-- Day of era from the civil date. -/
def dfcDoe (y m d : Int) : Int :=
  365 * dfcYoe y m + dfcYoe y m / 4 - dfcYoe y m / 100 + dfcDoy m d

/-- Convert a Gregorian civil date to its day number (days since 1970-01-01);
model of the parsing performed by `new Date("y-m-d")`. -/
def daysFromCivil (y m d : Int) : Int := dfcEra y m * 146097 + dfcDoe y m d - 719468

/-- `toLocaleDateString` with the de-DE locale (UTC): day, month and year as unpadded
decimal numbers separated by dots. -/
def formatDateDE (ts : Int) : List Char :=
  let c := civilFromDays (Int.fdiv ts 86400000)
  natDigits c.2.2.toNat ++ ('.' :: (natDigits c.2.1.toNat ++ ('.' :: natDigits c.1.toNat)))

/-- `toLocaleTimeString` with the de-DE locale and 2-digit hour and minute
options (UTC): zero-padded hour and minute separated by a colon. -/
def formatTimeDE (ts : Int) : List Char :=
  let ms := Int.emod ts 86400000
  pad2 (natDigits (ms / 3600000).toNat) ++ ':' :: pad2 (natDigits ((ms % 3600000) / 60000).toNat)

/-- `(duration / 3600).toFixed(2)`: decimal hours rounded to two fraction
digits (round-half-up on the exact rational; binary-float artifacts of the JS
builtin are not modelled). -/
def toFixed2Hours (duration : Int) : List Char :=
  let sign : List Char := if duration < 0 then ['-'] else []
  let cents := (duration.natAbs * 200 + 3600) / 7200
  sign ++ natDigits (cents / 100) ++ '.' ::
    digitChar (cents / 10 % 10) :: [digitChar (cents % 10)]

/-- `new Date(s)` for a string of the shape `y-m-d`, as milliseconds since the
epoch (UTC midnight of that date); anything else is not produced by the export
path and is mapped to 0. -/
def jsDateParseYMD (s : List Char) : Int :=
  match (splitSep '-' s).map parseDigits with
  | [some y, some m, some d] => 86400000 * daysFromCivil (y : Int) (m : Int) (d : Int)
  | _ => 0

/-- The sort key the source computes for a row:
`new Date(row[0].split('.').reverse().join('-'))`. -/
def rowDateKey (row : List (List Char)) : Int :=
  jsDateParseYMD (joinSep '-' (splitSep '.' (row.headD [])).reverse)

/-- The replace-all call doubling every double-quote character of a cell. -/
def escQuote (l : List Char) : List Char :=
  l.flatMap (fun c => if c = '"' then ['"', '"'] else [c])

/-- Wrap a cell in double quotes, doubling internal quotes. -/
def quoteCell (l : List Char) : List Char := '"' :: escQuote l ++ ['"']

/-- The header row of the CSV export. -/
def csvHeaders : List (List Char) :=
  [String.toList "Datum", String.toList "Kunde", String.toList "Projekt",
   String.toList "Beschreibung", String.toList "Start", String.toList "Ende",
   String.toList "Dauer (h)", String.toList "Dauer (Std:Min)"]

/-- storage.ts: the row built for one entry inside `exportToCSV`: date, client
name, project name, description, start time, end time, decimal hours, and
`H:MM` duration. An empty client or project name also falls back to
`Unbekannt` because the source uses the `||` operator. -/
def buildRow (data : AppData) (entry : TimeEntry) : List (List Char) :=
  let client : Option Client := match entry.clientId with
    | some cid => data.clients.find? (fun c => c.id == cid)
    | none => none
  let project : Option Project := match entry.projectId with
    | some pid => data.projects.find? (fun p => p.id == pid)
    | none => none
  let clientName := match client with
    | some c => if c.name == "" then String.toList "Unbekannt" else c.name.toList
    | none => String.toList "Unbekannt"
  let projectName := match project with
    | some p => if p.name == "" then String.toList "Unbekannt" else p.name.toList
    | none => String.toList "Unbekannt"
  let endCell := match entry.endTime with
    | some t => formatTimeDE t
    | none => ['-']
  let hoursInt := Int.fdiv entry.duration 3600
  let mins := Int.fdiv (Int.tmod entry.duration 3600) 60
  [formatDateDE entry.startTime, clientName, projectName, entry.description.toList,
   formatTimeDE entry.startTime, endCell, toFixed2Hours entry.duration,
   intDigits hoursInt ++ ':' :: pad2 (intDigits mins)]

/-- The order produced by `rows.sort((a, b) => dateB - dateA)`: descending by
the parsed date key (JS `sort` is stable, modelled by a stable merge sort). -/
def rowLE (a b : List (List Char)) : Bool := decide (rowDateKey b ≤ rowDateKey a)

/-- storage.ts: the data rows of `exportToCSV`, sorted by date descending. -/
def csvRows (data : AppData) : List (List (List Char)) :=
  (data.timeEntries.map (buildRow data)).mergeSort rowLE

/-- storage.ts: `exportToCSV()` — header row plus the sorted data rows, every
field quoted with internal quotes doubled, fields joined by `;`, rows joined
by newline. -/
def exportToCSV (data : AppData) : List Char :=
  joinSep '\n' ((csvHeaders :: csvRows data).map (fun row => joinSep ';' (row.map quoteCell)))

theorem natDigitsF_ne_nil (fuel n : Nat) : natDigitsF fuel n ≠ [] := by
  cases fuel with
  | zero => simp [natDigitsF]
  | succ fuel =>
    by_cases h : n < 10
    · simp [natDigitsF, h]
    · simp [natDigitsF, h]

theorem natDigitsF_mem (fuel : Nat) : ∀ n, n ≤ fuel → ∀ c ∈ natDigitsF fuel n,
    ∃ k, k < 10 ∧ c = digitChar k := by
  induction fuel with
  | zero =>
    intro n hn c hc
    have : n = 0 := by omega
    subst this
    simp only [natDigitsF, List.mem_singleton] at hc
    exact ⟨0, by omega, hc⟩
  | succ fuel ih =>
    intro n hn c hc
    by_cases h : n < 10
    · simp only [natDigitsF, h, if_true, List.mem_singleton] at hc
      exact ⟨n, h, hc⟩
    · simp only [natDigitsF, h, if_false, List.mem_append, List.mem_singleton] at hc
      rcases hc with hc | hc
      · exact ih (n / 10) (by omega) c hc
      · exact ⟨n % 10, by omega, hc⟩

theorem natDigits_mem (n : Nat) : ∀ c ∈ natDigits n, ∃ k, k < 10 ∧ c = digitChar k :=
  natDigitsF_mem n n (Nat.le_refl n)

theorem digitChar_facts : ∀ k < 10, (digitChar k).toNat = 48 + k ∧
    ((digitChar k) == '.') = false ∧ ((digitChar k) == '-') = false := by decide

theorem natDigits_no_dot (n : Nat) : ∀ c ∈ natDigits n, (c == '.') = false := by
  intro c hc
  obtain ⟨k, hk, rfl⟩ := natDigits_mem n c hc
  exact (digitChar_facts k hk).2.1

theorem natDigits_no_dash (n : Nat) : ∀ c ∈ natDigits n, (c == '-') = false := by
  intro c hc
  obtain ⟨k, hk, rfl⟩ := natDigits_mem n c hc
  exact (digitChar_facts k hk).2.2

theorem parseDigitsAux_natDigitsF (fuel : Nat) : ∀ n, n ≤ fuel → ∀ acc rest,
    parseDigitsAux acc (natDigitsF fuel n ++ rest) =
      parseDigitsAux (acc * 10 ^ (natDigitsF fuel n).length + n) rest := by
  induction fuel with
  | zero =>
    intro n hn acc rest
    have : n = 0 := by omega
    subst this
    simp [natDigitsF, parseDigitsAux, digitChar]
  | succ fuel ih =>
    intro n hn acc rest
    by_cases h : n < 10
    · have hd := (digitChar_facts n h).1
      simp only [natDigitsF, h, if_true, List.singleton_append, List.length_singleton,
        parseDigitsAux, hd, pow_one]
      rw [if_pos (by omega)]
      congr 2
      omega
    · have hstep : natDigitsF (fuel + 1) n = natDigitsF fuel (n / 10) ++ [digitChar (n % 10)] := by
        simp [natDigitsF, h]
      have hlen : (natDigitsF (fuel + 1) n).length = (natDigitsF fuel (n / 10)).length + 1 := by
        simp [hstep]
      have hrec : n / 10 ≤ fuel := by omega
      rw [hstep, List.append_assoc, ih (n / 10) hrec acc, List.singleton_append]
      have hd := (digitChar_facts (n % 10) (by omega)).1
      simp only [parseDigitsAux, hd]
      rw [if_pos (by omega)]
      have harith : ∀ L : Nat, (acc * 10 ^ L + n / 10) * 10 + (48 + n % 10 - 48) =
          acc * 10 ^ (L + 1) + n := by
        intro L
        rw [pow_succ, ← Nat.mul_assoc]
        generalize acc * 10 ^ L = A
        omega
      rw [List.length_append, List.length_singleton, harith]

theorem parseDigits_natDigits (n : Nat) : parseDigits (natDigits n) = some n := by
  have haux := parseDigitsAux_natDigitsF n n (Nat.le_refl n) 0 []
  rw [List.append_nil] at haux
  have hne := natDigitsF_ne_nil n n
  have hstep : parseDigits (natDigits n) = parseDigitsAux 0 (natDigits n) := by
    unfold natDigits at hne ⊢
    rcases hd : natDigitsF n n with _ | ⟨c, cs⟩
    · exact absurd hd hne
    · rfl
  rw [hstep]
  unfold natDigits
  rw [haux]
  simp [parseDigitsAux]

theorem splitSep_ne_nil (sep : Char) : ∀ l, splitSep sep l ≠ [] := by
  intro l
  cases l with
  | nil => simp [splitSep]
  | cons c cs =>
    simp only [splitSep]
    rcases h : splitSep sep cs with _ | ⟨t, ts⟩
    · simp
    · by_cases hc : (c == sep) = true <;> simp [hc]

theorem splitSep_no_sep (sep : Char) : ∀ l, (∀ c ∈ l, (c == sep) = false) →
    splitSep sep l = [l] := by
  intro l
  induction l with
  | nil => intro _; rfl
  | cons c cs ih =>
    intro h
    have hc : (c == sep) = false := h c (List.mem_cons_self c cs)
    have hrec := ih (fun x hx => h x (List.mem_cons_of_mem c hx))
    simp [splitSep, hrec, hc]

theorem splitSep_append (sep : Char) (l1 l2 : List Char)
    (h : ∀ c ∈ l1, (c == sep) = false) :
    splitSep sep (l1 ++ sep :: l2) = l1 :: splitSep sep l2 := by
  induction l1 with
  | nil =>
    simp only [List.nil_append, splitSep]
    rcases h2 : splitSep sep l2 with _ | ⟨t, ts⟩
    · exact absurd h2 (splitSep_ne_nil sep l2)
    · simp
  | cons c cs ih =>
    have hc : (c == sep) = false := h c (List.mem_cons_self c cs)
    have hrec := ih (fun x hx => h x (List.mem_cons_of_mem c hx))
    rw [List.cons_append]
    simp only [splitSep]
    rw [hrec]
    simp [hc]

theorem eraDiv (era w : Int) (h1 : 0 ≤ w) (h2 : w ≤ 399) : (400 * era + w) / 400 = era := by
  omega

theorem div4Split (c yoc : Int) (h1 : 0 ≤ yoc) (h2 : yoc ≤ 99) :
    (100 * c + yoc) / 4 = 25 * c + yoc / 4 := by
  omega

theorem div100Split (c yoc : Int) (h1 : 0 ≤ yoc) (h2 : yoc ≤ 99) :
    (100 * c + yoc) / 100 = c := by
  omega

theorem civil_roundtrip (z : Int) (hz : 0 ≤ z) :
    daysFromCivil (civilFromDays z).1 (civilFromDays z).2.1 (civilFromDays z).2.2 = z ∧
    0 ≤ (civilFromDays z).1 ∧ 1 ≤ (civilFromDays z).2.1 ∧ (civilFromDays z).2.1 ≤ 12 ∧
    1 ≤ (civilFromDays z).2.2 ∧ (civilFromDays z).2.2 ≤ 31 := by
  have h0 : civilEra z = (z + 719468) / 146097 := rfl
  have h1 : civilDoe z = z + 719468 - 146097 * civilEra z := rfl
  have hb1 : 0 ≤ civilDoe z ∧ civilDoe z ≤ 146096 := by rw [h1, h0]; omega
  have h2 : civilC z = (4 * civilDoe z + 3) / 146097 := rfl
  have hb2 : 0 ≤ civilC z ∧ civilC z ≤ 3 ∧ 36524 * civilC z ≤ civilDoe z ∧
      civilDoe z - 36524 * civilC z ≤ 36524 := by omega
  have h3 : civilDg z = civilDoe z - 36524 * civilC z := rfl
  have h4 : civilYoc z = (4 * civilDg z + 3) / 1461 := rfl
  have hb4 : 0 ≤ civilYoc z ∧ civilYoc z ≤ 99 ∧
      365 * civilYoc z + civilYoc z / 4 ≤ civilDg z ∧
      civilDg z - (365 * civilYoc z + civilYoc z / 4) ≤ 365 := by omega
  have h5 : civilDoy z = civilDg z - (365 * civilYoc z + civilYoc z / 4) := rfl
  have h6 : civilMp z = (5 * civilDoy z + 2) / 153 := rfl
  have hb6 : 0 ≤ civilMp z ∧ civilMp z ≤ 11 ∧ (153 * civilMp z + 2) / 5 ≤ civilDoy z ∧
      civilDoy z - (153 * civilMp z + 2) / 5 + 1 ≤ 31 := by omega
  have hera : 0 ≤ civilEra z := by rw [h0]; omega
  by_cases hmp : civilMp z < 10
  · simp only [civilFromDays, if_pos hmp]
    rw [if_neg (show ¬(civilMp z + 3 ≤ 2) by omega)]
    simp only [add_zero]
    set Y := 400 * civilEra z + 100 * civilC z + civilYoc z with hY
    set M := civilMp z + 3 with hM
    set D := civilDoy z - (153 * civilMp z + 2) / 5 + 1 with hD
    have e1 : dfcY2 Y M = Y - 0 := by
      rw [show dfcY2 Y M = Y - (if M ≤ 2 then 1 else 0) from rfl,
        if_neg (show ¬(M ≤ 2) by omega)]
    have e4 : dfcDoy M D = (153 * (M + -3) + 2) / 5 + D - 1 := by
      rw [show dfcDoy M D = (153 * (M + (if 2 < M then -3 else 9)) + 2) / 5 + D - 1 from rfl,
        if_pos (show 2 < M by omega)]
    rw [show M + -3 = civilMp z by omega] at e4
    have hYw : dfcY2 Y M = 400 * civilEra z + (100 * civilC z + civilYoc z) := by
      rw [e1]; omega
    have hkey0 : dfcEra Y M = civilEra z := by
      rw [show dfcEra Y M = dfcY2 Y M / 400 from rfl, hYw]
      exact eraDiv (civilEra z) (100 * civilC z + civilYoc z) (by omega) (by omega)
    have hkey1 : dfcYoe Y M = 100 * civilC z + civilYoc z := by
      rw [show dfcYoe Y M = dfcY2 Y M - 400 * dfcEra Y M from rfl, hYw, hkey0]
      omega
    have hkey2 : dfcYoe Y M / 4 = 25 * civilC z + civilYoc z / 4 := by
      rw [hkey1]; exact div4Split _ _ (by omega) (by omega)
    have hkey3 : dfcYoe Y M / 100 = civilC z := by
      rw [hkey1]; exact div100Split _ _ (by omega) (by omega)
    have hkey4 : dfcDoy M D = civilDoy z := by rw [e4]; omega
    have final : daysFromCivil Y M D =
        civilEra z * 146097 + (365 * (100 * civilC z + civilYoc z) +
          (25 * civilC z + civilYoc z / 4) - civilC z + civilDoy z) - 719468 := by
      rw [show daysFromCivil Y M D = dfcEra Y M * 146097 +
          (365 * dfcYoe Y M + dfcYoe Y M / 4 - dfcYoe Y M / 100 + dfcDoy M D) - 719468 from rfl,
        hkey0, hkey2, hkey3, hkey1, hkey4]
    clear h0 h2 h4 h6 e1 e4 hYw hkey0 hkey1 hkey2 hkey3 hkey4
    refine ⟨?_, ?_, ?_, ?_, ?_, ?_⟩ <;> omega
  · simp only [civilFromDays, if_neg hmp]
    rw [if_pos (show civilMp z + -9 ≤ 2 by omega)]
    set Y := 400 * civilEra z + 100 * civilC z + civilYoc z + 1 with hY
    set M := civilMp z + -9 with hM
    set D := civilDoy z - (153 * civilMp z + 2) / 5 + 1 with hD
    have e1 : dfcY2 Y M = Y - 1 := by
      rw [show dfcY2 Y M = Y - (if M ≤ 2 then 1 else 0) from rfl,
        if_pos (show M ≤ 2 by omega)]
    have e4 : dfcDoy M D = (153 * (M + 9) + 2) / 5 + D - 1 := by
      rw [show dfcDoy M D = (153 * (M + (if 2 < M then -3 else 9)) + 2) / 5 + D - 1 from rfl,
        if_neg (show ¬(2 < M) by omega)]
    rw [show M + 9 = civilMp z by omega] at e4
    have hYw : dfcY2 Y M = 400 * civilEra z + (100 * civilC z + civilYoc z) := by
      rw [e1]; omega
    have hkey0 : dfcEra Y M = civilEra z := by
      rw [show dfcEra Y M = dfcY2 Y M / 400 from rfl, hYw]
      exact eraDiv (civilEra z) (100 * civilC z + civilYoc z) (by omega) (by omega)
    have hkey1 : dfcYoe Y M = 100 * civilC z + civilYoc z := by
      rw [show dfcYoe Y M = dfcY2 Y M - 400 * dfcEra Y M from rfl, hYw, hkey0]
      omega
    have hkey2 : dfcYoe Y M / 4 = 25 * civilC z + civilYoc z / 4 := by
      rw [hkey1]; exact div4Split _ _ (by omega) (by omega)
    have hkey3 : dfcYoe Y M / 100 = civilC z := by
      rw [hkey1]; exact div100Split _ _ (by omega) (by omega)
    have hkey4 : dfcDoy M D = civilDoy z := by rw [e4]; omega
    have final : daysFromCivil Y M D =
        civilEra z * 146097 + (365 * (100 * civilC z + civilYoc z) +
          (25 * civilC z + civilYoc z / 4) - civilC z + civilDoy z) - 719468 := by
      rw [show daysFromCivil Y M D = dfcEra Y M * 146097 +
          (365 * dfcYoe Y M + dfcYoe Y M / 4 - dfcYoe Y M / 100 + dfcDoy M D) - 719468 from rfl,
        hkey0, hkey2, hkey3, hkey1, hkey4]
    clear h0 h2 h4 h6 e1 e4 hYw hkey0 hkey1 hkey2 hkey3 hkey4
    refine ⟨?_, ?_, ?_, ?_, ?_, ?_⟩ <;> omega

theorem rowDateKey_head (ts : Int) (h : 0 ≤ ts) (row : List (List Char))
    (hhead : row.headD [] = formatDateDE ts) :
    rowDateKey row = 86400000 * Int.fdiv ts 86400000 := by
  have hz : 0 ≤ Int.fdiv ts 86400000 := Int.fdiv_nonneg h (by norm_num)
  obtain ⟨hrt, hy, hm1, hm2, hd1, hd2⟩ := civil_roundtrip (Int.fdiv ts 86400000) hz
  set z := Int.fdiv ts 86400000 with hzdef
  set y := (civilFromDays z).1 with hy2
  set m := (civilFromDays z).2.1 with hm3
  set d := (civilFromDays z).2.2 with hd3
  have hfmt : formatDateDE ts =
      natDigits d.toNat ++ '.' :: (natDigits m.toNat ++ '.' :: natDigits y.toNat) := rfl
  have hsplit : splitSep '.' (formatDateDE ts) =
      [natDigits d.toNat, natDigits m.toNat, natDigits y.toNat] := by
    rw [hfmt, splitSep_append '.' _ _ (natDigits_no_dot _),
      splitSep_append '.' _ _ (natDigits_no_dot _),
      splitSep_no_sep '.' _ (natDigits_no_dot _)]
  rw [rowDateKey, hhead, hsplit]
  have hrev : ([natDigits d.toNat, natDigits m.toNat, natDigits y.toNat]).reverse =
      [natDigits y.toNat, natDigits m.toNat, natDigits d.toNat] := by simp
  rw [hrev]
  have hjoin : joinSep '-' [natDigits y.toNat, natDigits m.toNat, natDigits d.toNat] =
      natDigits y.toNat ++ ('-' :: (natDigits m.toNat ++ ('-' :: natDigits d.toNat))) := by
    simp [joinSep]
  rw [hjoin, jsDateParseYMD, splitSep_append '-' _ _ (natDigits_no_dash _),
    splitSep_append '-' _ _ (natDigits_no_dash _),
    splitSep_no_sep '-' _ (natDigits_no_dash _)]
  simp only [List.map_cons, List.map_nil, parseDigits_natDigits]
  rw [Int.toNat_of_nonneg (by omega), Int.toNat_of_nonneg (by omega),
    Int.toNat_of_nonneg (by omega), hrt]

theorem rowDateKey_buildRow (data : AppData) (e : TimeEntry) (h : 0 ≤ e.startTime) :
    rowDateKey (buildRow data e) = 86400000 * Int.fdiv e.startTime 86400000 :=
  rowDateKey_head e.startTime h (buildRow data e) rfl

theorem rowLE_trans (a b c : List (List Char)) :
    rowLE a b = true → rowLE b c = true → rowLE a c = true := by
  simp only [rowLE, decide_eq_true_eq]
  omega

theorem rowLE_total (a b : List (List Char)) : (rowLE a b || rowLE b a) = true := by
  simp only [rowLE, Bool.or_eq_true, decide_eq_true_eq]
  omega

/-- Model anchors: the calendar model maps the epoch to 1970-01-01 and handles
leap years and the century rule. -/
theorem civilFromDays_anchor :
    civilFromDays 0 = (1970, 1, 1) ∧
    daysFromCivil 1970 1 1 = 0 ∧
    civilFromDays (daysFromCivil 2024 2 29) = (2024, 2, 29) ∧
    civilFromDays (daysFromCivil 2000 2 29) = (2000, 2, 29) ∧
    civilFromDays (daysFromCivil 2100 2 28) = (2100, 2, 28) ∧
    daysFromCivil 2024 3 1 = daysFromCivil 2024 2 29 + 1 ∧
    civilFromDays (daysFromCivil 2026 10 11) = (2026, 10, 11) := by
  refine ⟨by decide, by decide, by decide, by decide, by decide, by decide, by decide⟩

/-- Model anchors: the de-DE formatters on concrete instants. -/
theorem formatDE_anchor :
    formatDateDE 1791676800000 = String.toList "11.10.2026" ∧
    formatTimeDE 1760192706000 = String.toList "14:25" ∧
    rowDateKey [formatDateDE 1760192706000] = 1760140800000 := by
  refine ⟨by decide, by decide, by decide⟩

/-- Claim C8: `exportToCSV` consists of the header line followed by exactly
one data row per TimeEntry (a permutation of the built rows), each with eight
columns (date, client name, project name, description, start time, end time,
decimal hours, H:MM duration); every field, headers included, is wrapped in
double quotes with internal double quotes doubled and fields are joined by
semicolons; and the data rows are sorted by the parsed date key in descending
order, where the key of the row of an entry is midnight (UTC) of the calendar date
of its `startTime` — so rows with more recent dates come first. Entry
timestamps are assumed nonnegative (within the domain of the `Date`
builtins). -/
theorem exportToCSV_spec (data : AppData)
    (hpos : ∀ e ∈ data.timeEntries, 0 ≤ e.startTime) :
    exportToCSV data =
      joinSep '\n'
        ((csvHeaders :: csvRows data).map (fun row => joinSep ';' (row.map quoteCell))) ∧
    (∀ cell, quoteCell cell =
      '"' :: (cell.flatMap (fun ch => if ch = '"' then ['"', '"'] else [ch]) ++ ['"'])) ∧
    (csvRows data).length = data.timeEntries.length ∧
    (csvRows data).Perm (data.timeEntries.map (buildRow data)) ∧
    (∀ row ∈ csvRows data, row.length = 8) ∧
    (csvRows data).Pairwise (fun a b => rowDateKey b ≤ rowDateKey a) ∧
    (∀ e ∈ data.timeEntries, rowDateKey (buildRow data e) =
      86400000 * Int.fdiv e.startTime 86400000) := by
  have hperm := List.mergeSort_perm (data.timeEntries.map (buildRow data)) rowLE
  refine ⟨rfl, ?_, ?_, ?_, ?_, ?_, ?_⟩
  · intro cell
    simp [quoteCell, escQuote]
  · rw [csvRows, hperm.length_eq, List.length_map]
  · exact hperm
  · intro row hrow
    have hmem : row ∈ data.timeEntries.map (buildRow data) := hperm.mem_iff.mp hrow
    obtain ⟨e, _, rfl⟩ := List.mem_map.mp hmem
    rfl
  · have hs := @List.sorted_mergeSort (List (List Char)) rowLE rowLE_trans rowLE_total
      (data.timeEntries.map (buildRow data))
    exact hs.imp (fun h => by simpa [rowLE, decide_eq_true_eq] using h)
  · intro e he
    exact rowDateKey_buildRow data e (hpos e he)

/-- Entry on 1970-01-01 for the CSV witness. -/
def exEntryCsv1 : TimeEntry :=
  { id := "e1", projectId := some "p1", clientId := some "c1", description := "one",
    startTime := 0, endTime := some 3600000, duration := 3600, isRunning := false,
    createdAt := 0 }

/-- Entry on 1970-01-02 for the CSV witness. -/
def exEntryCsv2 : TimeEntry :=
  { id := "e2", projectId := some "p1", clientId := some "c1", description := "two",
    startTime := 86400000, endTime := none, duration := 90, isRunning := false,
    createdAt := 86400000 }

/-- Two-entry document on consecutive dates. -/
def exDocCsv : AppData :=
  { clients := [exClient], projects := [exProject],
    timeEntries := [exEntryCsv1, exEntryCsv2] }

/-- Witness for claim C8 at a concrete input: a two-entry document yields two
data rows of eight columns, sorted by descending date key, and the key of each
row is the UTC midnight of the date of its entry. -/
theorem exportToCSV_spec_witness :
    (csvRows exDocCsv).length = exDocCsv.timeEntries.length ∧
    (csvRows exDocCsv).Pairwise (fun a b => rowDateKey b ≤ rowDateKey a) ∧
    (∀ row ∈ csvRows exDocCsv, row.length = 8) ∧
    (∀ e ∈ exDocCsv.timeEntries, rowDateKey (buildRow exDocCsv e) =
      86400000 * Int.fdiv e.startTime 86400000) :=
  ⟨(exportToCSV_spec exDocCsv (by decide)).2.2.1,
   (exportToCSV_spec exDocCsv (by decide)).2.2.2.2.2.1,
   (exportToCSV_spec exDocCsv (by decide)).2.2.2.2.1,
   (exportToCSV_spec exDocCsv (by decide)).2.2.2.2.2.2⟩
